import Mathlib

/-!
Formal model of the key-management core of the token-core repository
(crate tcx-primitive: files ecc.rs, sm2.rs, sm2_bip32.rs, starknet_curve.rs).

Bytes are modelled as `Nat` values kept below 256 by construction, byte
strings as `List Nat`, Rust strings as `List Char`.  Fallible Rust code
returning `Result` is modelled with `Except`; a Rust panic (an uncatchable
fault) is modelled as `Option.none` in an outer `Option` layer.

External crates (bitcoin_hashes, libsm, cita_sm2, bip39, the bitcoin base58
module) are modelled by executable Lean definitions of the algorithms those
crates implement (SHA-256, SHA-512, HMAC, RIPEMD-160, PBKDF2, SM2 curve
arithmetic, base58check); each such definition carries a comment naming the
crate item it models.
-/

set_option maxRecDepth 100000
set_option maxHeartbeats 4000000

/-! ## Byte and word utilities -/

/-- Big-endian bytes of `n`, exactly `k` bytes (most significant first). -/
def beBytes : Nat → Nat → List Nat
  | 0, _ => []
  | k + 1, n => beBytes k (n / 256) ++ [n % 256]

/-- Big-endian interpretation of a byte list as a natural number. -/
def natOfBe (l : List Nat) : Nat := l.foldl (fun acc b => acc * 256 + b) 0

/-- Modulus for 64-bit words. -/
def M64 : Nat := 18446744073709551616

/-- Modulus for 32-bit words. -/
def M32 : Nat := 4294967296

/-- Right rotation of a 64-bit word. -/
def rotr64 (w k : Nat) : Nat := ((w >>> k) ||| (w <<< (64 - k))) % M64

/-- Right rotation of a 32-bit word. -/
def rotr32 (w k : Nat) : Nat := ((w >>> k) ||| (w <<< (32 - k))) % M32

/-- Left rotation of a 32-bit word. -/
def rotl32 (w k : Nat) : Nat := ((w <<< k) ||| (w >>> (32 - k))) % M32

/-- Bitwise complement of a 32-bit word. -/
def not32 (w : Nat) : Nat := 4294967295 - w % M32

/-- Evaluation-order hint: semantically the identity on `x`, but forces
`n` to a numeral when reduced, keeping definitional-equality checks of the
iterated hash functions below within bounded stack depth. -/
def seqNat {α : Sort u} (n : Nat) (x : α) : α := if n = 0 then x else x

/-- Forces every element of a byte list (identity on `x`). -/
def seqListNat {α : Sort u} : List Nat → α → α
  | [], x => x
  | n :: t, x => seqNat n (seqListNat t x)

theorem seqNat_eq {α : Sort u} (n : Nat) (x : α) : seqNat n x = x := by
  unfold seqNat; split <;> rfl

theorem seqListNat_eq {α : Sort u} (l : List Nat) (x : α) : seqListNat l x = x := by
  induction l with
  | nil => rfl
  | cons n t ih => simp [seqListNat, seqNat_eq, ih]

/-! ## SHA-512 (model of the `bitcoin_hashes::sha512` implementation) -/

/-- SHA-512 round constants. -/
def sha512K : List Nat := [
  4794697086780616226, 8158064640168781261, 13096744586834688815, 16840607885511220156,
  4131703408338449720, 6480981068601479193, 10538285296894168987, 12329834152419229976,
  15566598209576043074, 1334009975649890238, 2608012711638119052, 6128411473006802146,
  8268148722764581231, 9286055187155687089, 11230858885718282805, 13951009754708518548,
  16472876342353939154, 17275323862435702243, 1135362057144423861, 2597628984639134821,
  3308224258029322869, 5365058923640841347, 6679025012923562964, 8573033837759648693,
  10970295158949994411, 12119686244451234320, 12683024718118986047, 13788192230050041572,
  14330467153632333762, 15395433587784984357, 489312712824947311, 1452737877330783856,
  2861767655752347644, 3322285676063803686, 5560940570517711597, 5996557281743188959,
  7280758554555802590, 8532644243296465576, 9350256976987008742, 10552545826968843579,
  11727347734174303076, 12113106623233404929, 14000437183269869457, 14369950271660146224,
  15101387698204529176, 15463397548674623760, 17586052441742319658, 1182934255886127544,
  1847814050463011016, 2177327727835720531, 2830643537854262169, 3796741975233480872,
  4115178125766777443, 5681478168544905931, 6601373596472566643, 7507060721942968483,
  8399075790359081724, 8693463985226723168, 9568029438360202098, 10144078919501101548,
  10430055236837252648, 11840083180663258601, 13761210420658862357, 14299343276471374635,
  14566680578165727644, 15097957966210449927, 16922976911328602910, 17689382322260857208,
  500013540394364858, 748580250866718886, 1242879168328830382, 1977374033974150939,
  2944078676154940804, 3659926193048069267, 4368137639120453308, 4836135668995329356,
  5532061633213252278, 6448918945643986474, 6902733635092675308, 7801388544844847127]

/-- Sixteen-word schedule window for the SHA-512 rounds, oldest word
first. -/
structure W16 where
  a0 : Nat
  a1 : Nat
  a2 : Nat
  a3 : Nat
  a4 : Nat
  a5 : Nat
  a6 : Nat
  a7 : Nat
  a8 : Nat
  a9 : Nat
  a10 : Nat
  a11 : Nat
  a12 : Nat
  a13 : Nat
  a14 : Nat
  a15 : Nat

/-- Eight-word hash state. -/
structure St8 where
  a : Nat
  b : Nat
  c : Nat
  d : Nat
  e : Nat
  f : Nat
  g : Nat
  h : Nat

/-- SHA-512 message-schedule extension over the window. -/
def sha512Next (w : W16) : Nat :=
  let s0 := (rotr64 w.a1 1) ^^^ (rotr64 w.a1 8) ^^^ (w.a1 >>> 7)
  let s1 := (rotr64 w.a14 19) ^^^ (rotr64 w.a14 61) ^^^ (w.a14 >>> 6)
  (w.a0 + s0 + w.a9 + s1) % M64

/-- One SHA-512 round with key word `k` and schedule word `wt`. -/
def sha512Round (st : St8) (k wt : Nat) : St8 :=
  let S1 := (rotr64 st.e 14) ^^^ (rotr64 st.e 18) ^^^ (rotr64 st.e 41)
  let ch := (st.e &&& st.f) ^^^ ((M64 - 1 - st.e) &&& st.g)
  let t1 := (st.h + S1 + ch + k + wt) % M64
  let S0 := (rotr64 st.a 28) ^^^ (rotr64 st.a 34) ^^^ (rotr64 st.a 39)
  let mj := (st.a &&& st.b) ^^^ (st.a &&& st.c) ^^^ (st.b &&& st.c)
  let t2 := (S0 + mj) % M64
  ⟨(t1 + t2) % M64, st.a, st.b, st.c, (st.d + t1) % M64, st.e, st.f, st.g⟩

/-- Shifts the window by one, feeding the extended word. -/
def w16Shift (w : W16) (nw : Nat) : W16 :=
  ⟨w.a1, w.a2, w.a3, w.a4, w.a5, w.a6, w.a7, w.a8,
   w.a9, w.a10, w.a11, w.a12, w.a13, w.a14, w.a15, nw⟩

/-- Forces the eight state words (identity on `x`). -/
def st8Seq {α : Sort u} (s : St8) (x : α) : α :=
  seqNat s.a (seqNat s.b (seqNat s.c (seqNat s.d
    (seqNat s.e (seqNat s.f (seqNat s.g (seqNat s.h x)))))))

/-- Runs the 80 SHA-512 rounds, carrying the schedule window. -/
def sha512Rounds : List Nat → W16 → St8 → St8
  | [], _, st => st
  | k :: ks, w, st =>
    let st2 := sha512Round st k w.a0
    let nw := sha512Next w
    st8Seq st2 (seqNat nw (sha512Rounds ks (w16Shift w nw) st2))

/-- Reads the eight-byte big-endian word at position `8 * i` of a block. -/
def blockWord (block : List Nat) (i : Nat) : Nat :=
  natOfBe ((block.drop (8 * i)).take 8)

/-- SHA-512 compression of one 128-byte block into the running state. -/
def sha512Compress (st : List Nat) (block : List Nat) : List Nat :=
  let w : W16 := ⟨blockWord block 0, blockWord block 1, blockWord block 2,
    blockWord block 3, blockWord block 4, blockWord block 5, blockWord block 6,
    blockWord block 7, blockWord block 8, blockWord block 9, blockWord block 10,
    blockWord block 11, blockWord block 12, blockWord block 13, blockWord block 14,
    blockWord block 15⟩
  match st with
  | [a, b, c, d, e, f, g, h] =>
    let fin := sha512Rounds sha512K w ⟨a, b, c, d, e, f, g, h⟩
    [(a + fin.a) % M64, (b + fin.b) % M64, (c + fin.c) % M64, (d + fin.d) % M64,
     (e + fin.e) % M64, (f + fin.f) % M64, (g + fin.g) % M64, (h + fin.h) % M64]
  | _ => st

/-- Splits a list into chunks of `sz` elements (fuel-driven). -/
def chunksAux : Nat → Nat → List Nat → List (List Nat)
  | 0, _, _ => []
  | _, _, [] => []
  | f + 1, sz, l => l.take sz :: chunksAux f sz (l.drop sz)

def chunks (sz : Nat) (l : List Nat) : List (List Nat) :=
  chunksAux (l.length + 1) sz l

/-- SHA-512 padding: append 0x80, zeros, and the 128-bit big-endian bit
length, reaching a multiple of 128 bytes. -/
def sha512Pad (msg : List Nat) : List Nat :=
  let padLen := (128 - (msg.length + 17) % 128) % 128
  msg ++ [0x80] ++ List.replicate padLen 0 ++ beBytes 16 (msg.length * 8)

/-- SHA-512 initial state. -/
def sha512Init : List Nat := [
  7640891576956012808, 13503953896175478587, 4354685564936845355, 11912009170470909681,
  5840696475078001361, 11170449401992604703, 2270897969802886507, 6620516959819538809]

/-- SHA-512 of a byte string, as 64 bytes. -/
def sha512 (msg : List Nat) : List Nat :=
  let st := ((chunks 128 (sha512Pad msg)).foldl sha512Compress sha512Init)
  beBytes 8 (st.getD 0 0) ++ beBytes 8 (st.getD 1 0) ++ beBytes 8 (st.getD 2 0) ++
  beBytes 8 (st.getD 3 0) ++ beBytes 8 (st.getD 4 0) ++ beBytes 8 (st.getD 5 0) ++
  beBytes 8 (st.getD 6 0) ++ beBytes 8 (st.getD 7 0)

/-! ## HMAC-SHA512 (model of `bitcoin_hashes::{Hmac, HmacEngine}<sha512>`) -/

/-- HMAC key preprocessing: keys longer than the 128-byte block are hashed,
then the key is zero-padded to 128 bytes. -/
def hmacPadKey (key : List Nat) : List Nat :=
  let k0 := if key.length > 128 then sha512 key else key
  k0 ++ List.replicate (128 - k0.length) 0

/-- HMAC-SHA512 of `data` under `key`. -/
def hmacSha512 (key data : List Nat) : List Nat :=
  let k0 := hmacPadKey key
  let ipad := k0.map (fun b => b ^^^ 0x36)
  let opad := k0.map (fun b => b ^^^ 0x5c)
  sha512 (opad ++ sha512 (ipad ++ data))

/-! ## SHA-256 (model of `bitcoin_hashes::sha256`, used by the base58check
checksum and the extended-key identifier) -/

/-- SHA-256 round constants. -/
def sha256K : List Nat := [
  1116352408, 1899447441, 3049323471, 3921009573, 961987163, 1508970993,
  2453635748, 2870763221, 3624381080, 310598401, 607225278, 1426881987,
  1925078388, 2162078206, 2614888103, 3248222580, 3835390401, 4022224774,
  264347078, 604807628, 770255983, 1249150122, 1555081692, 1996064986,
  2554220882, 2821834349, 2952996808, 3210313671, 3336571891, 3584528711,
  113926993, 338241895, 666307205, 773529912, 1294757372, 1396182291,
  1695183700, 1986661051, 2177026350, 2456956037, 2730485921, 2820302411,
  3259730800, 3345764771, 3516065817, 3600352804, 4094571909, 275423344,
  430227734, 506948616, 659060556, 883997877, 958139571, 1322822218,
  1537002063, 1747873779, 1955562222, 2024104815, 2227730452, 2361852424,
  2428436474, 2756734187, 3204031479, 3329325298]

/-- SHA-256 message-schedule extension over the last 16 words. -/
def sha256Next (w : List Nat) : Nat :=
  let g := fun (i : Nat) => w.getD i 0
  let s0 := (rotr32 (g 1) 7) ^^^ (rotr32 (g 1) 18) ^^^ ((g 1) >>> 3)
  let s1 := (rotr32 (g 14) 17) ^^^ (rotr32 (g 14) 19) ^^^ ((g 14) >>> 10)
  (g 0 + s0 + g 9 + s1) % M32

/-- One SHA-256 round. -/
def sha256Round (st : List Nat) (k w : Nat) : List Nat :=
  match st with
  | [a, b, c, d, e, f, g, h] =>
    let S1 := (rotr32 e 6) ^^^ (rotr32 e 11) ^^^ (rotr32 e 25)
    let ch := (e &&& f) ^^^ ((M32 - 1 - e) &&& g)
    let t1 := (h + S1 + ch + k + w) % M32
    let S0 := (rotr32 a 2) ^^^ (rotr32 a 13) ^^^ (rotr32 a 22)
    let mj := (a &&& b) ^^^ (a &&& c) ^^^ (b &&& c)
    let t2 := (S0 + mj) % M32
    [(t1 + t2) % M32, a, b, c, (d + t1) % M32, e, f, g]
  | _ => st

/-- Runs the 64 SHA-256 rounds. -/
def sha256Rounds : List Nat → List Nat → List Nat → List Nat
  | [], _, st => st
  | k :: ks, w, st =>
    let wt := w.headD 0
    let nw := sha256Next w
    sha256Rounds ks (w.drop 1 ++ [nw]) (sha256Round st k wt)

/-- SHA-256 compression of one 64-byte block. -/
def sha256Compress (st : List Nat) (block : List Nat) : List Nat :=
  let ws := (List.range 16).map (fun i => natOfBe ((block.drop (4 * i)).take 4))
  let fin := sha256Rounds sha256K ws st
  (List.zipWith (fun a b => (a + b) % M32) st fin)

/-- SHA-256 padding to a multiple of 64 bytes with 64-bit bit length. -/
def sha256Pad (msg : List Nat) : List Nat :=
  let padLen := (64 - (msg.length + 9) % 64) % 64
  msg ++ [0x80] ++ List.replicate padLen 0 ++ beBytes 8 (msg.length * 8)

/-- SHA-256 initial state. -/
def sha256Init : List Nat := [
  1779033703, 3144134277, 1013904242, 2773480762, 1359893119, 2600822924,
  528734635, 1541459225]

/-- SHA-256 of a byte string, as 32 bytes. -/
def sha256 (msg : List Nat) : List Nat :=
  let st := ((chunks 64 (sha256Pad msg)).foldl sha256Compress sha256Init)
  beBytes 4 (st.getD 0 0) ++ beBytes 4 (st.getD 1 0) ++ beBytes 4 (st.getD 2 0) ++
  beBytes 4 (st.getD 3 0) ++ beBytes 4 (st.getD 4 0) ++ beBytes 4 (st.getD 5 0) ++
  beBytes 4 (st.getD 6 0) ++ beBytes 4 (st.getD 7 0)

/-! ## RIPEMD-160 (model of `bitcoin_hashes::ripemd160`; with SHA-256 it
forms the hash160 used by `XpubIdentifier`) -/

/-- Little-endian bytes of `n`, exactly `k` bytes. -/
def leBytes : Nat → Nat → List Nat
  | 0, _ => []
  | k + 1, n => n % 256 :: leBytes k (n / 256)

/-- Little-endian interpretation of a byte list. -/
def natOfLe (l : List Nat) : Nat := l.foldr (fun b acc => acc * 256 + b) 0

/-- RIPEMD-160 round functions, selected by round number 0..4. -/
def rmdF (j x y z : Nat) : Nat :=
  if j = 0 then x ^^^ y ^^^ z
  else if j = 1 then (x &&& y) ||| (not32 x &&& z)
  else if j = 2 then (x ||| not32 y) ^^^ z
  else if j = 3 then (x &&& z) ||| (y &&& not32 z)
  else x ^^^ (y ||| not32 z)

/-- RIPEMD-160 left-line round constants. -/
def rmdKL : List Nat := [0, 0x5a827999, 0x6ed9eba1, 0x8f1bbcdc, 0xa953fd4e]

/-- RIPEMD-160 right-line round constants. -/
def rmdKR : List Nat := [0x50a28be6, 0x5c4dd124, 0x6d703ef3, 0x7a6d76e9, 0]

/-- RIPEMD-160 left-line message order. -/
def rmdRL : List Nat := [
  0, 1, 2, 3, 4, 5, 6, 7, 8, 9, 10, 11, 12, 13, 14, 15,
  7, 4, 13, 1, 10, 6, 15, 3, 12, 0, 9, 5, 2, 14, 11, 8,
  3, 10, 14, 4, 9, 15, 8, 1, 2, 7, 0, 6, 13, 11, 5, 12,
  1, 9, 11, 10, 0, 8, 12, 4, 13, 3, 7, 15, 14, 5, 6, 2,
  4, 0, 5, 9, 7, 12, 2, 10, 14, 1, 3, 8, 11, 6, 15, 13]

/-- RIPEMD-160 right-line message order. -/
def rmdRR : List Nat := [
  5, 14, 7, 0, 9, 2, 11, 4, 13, 6, 15, 8, 1, 10, 3, 12,
  6, 11, 3, 7, 0, 13, 5, 10, 14, 15, 8, 12, 4, 9, 1, 2,
  15, 5, 1, 3, 7, 14, 6, 9, 11, 8, 12, 2, 10, 0, 4, 13,
  8, 6, 4, 1, 3, 11, 15, 0, 5, 12, 2, 13, 9, 7, 10, 14,
  12, 15, 10, 4, 1, 5, 8, 7, 6, 2, 13, 14, 0, 3, 9, 11]

/-- RIPEMD-160 left-line shift amounts. -/
def rmdSL : List Nat := [
  11, 14, 15, 12, 5, 8, 7, 9, 11, 13, 14, 15, 6, 7, 9, 8,
  7, 6, 8, 13, 11, 9, 7, 15, 7, 12, 15, 9, 11, 7, 13, 12,
  11, 13, 6, 7, 14, 9, 13, 15, 14, 8, 13, 6, 5, 12, 7, 5,
  11, 12, 14, 15, 14, 15, 9, 8, 9, 14, 5, 6, 8, 6, 5, 12,
  9, 15, 5, 11, 6, 8, 13, 12, 5, 12, 13, 14, 11, 8, 5, 6]

/-- RIPEMD-160 right-line shift amounts. -/
def rmdSR : List Nat := [
  8, 9, 9, 11, 13, 15, 15, 5, 7, 7, 8, 11, 14, 14, 12, 6,
  9, 13, 15, 7, 12, 8, 9, 11, 7, 7, 12, 7, 6, 15, 13, 11,
  9, 7, 15, 11, 8, 6, 6, 14, 12, 13, 5, 14, 13, 13, 7, 5,
  15, 5, 8, 11, 14, 14, 6, 14, 6, 9, 12, 9, 12, 5, 15, 8,
  8, 5, 12, 9, 12, 5, 14, 6, 8, 13, 6, 5, 15, 13, 11, 11]

/-- One RIPEMD-160 line step at position `t` of one line; the right line
(`rev = true`) applies the round functions in reverse order. -/
def rmdStep (rev : Bool) (x : List Nat) (ks rs ss : List Nat) (t : Nat) (st : List Nat) : List Nat :=
  match st with
  | [a, b, c, d, e] =>
    let j := if rev then 4 - t / 16 else t / 16
    let f := rmdF j b c d
    let w := x.getD (rs.getD t 0) 0
    let k := ks.getD (t / 16) 0
    let tt := (rotl32 ((a + f + w + k) % M32) (ss.getD t 0) + e) % M32
    [e, tt, b, rotl32 c 10, d]
  | _ => st

/-- Runs one full 80-step RIPEMD-160 line. -/
def rmdLine (rev : Bool) (x : List Nat) (ks rs ss : List Nat) (st : List Nat) : List Nat :=
  (List.range 80).foldl (fun s t => rmdStep rev x ks rs ss t s) st

/-- RIPEMD-160 compression of one 64-byte block (words little-endian). -/
def rmdCompress (st : List Nat) (block : List Nat) : List Nat :=
  let x := (List.range 16).map (fun i => natOfLe ((block.drop (4 * i)).take 4))
  match st, rmdLine false x rmdKL rmdRL rmdSL st, rmdLine true x rmdKR rmdRR rmdSR st with
  | [h0, h1, h2, h3, h4], [al, bl, cl, dl, el], [ar, br, cr, dr, er] =>
    [(h1 + cl + dr) % M32, (h2 + dl + er) % M32, (h3 + el + ar) % M32,
     (h4 + al + br) % M32, (h0 + bl + cr) % M32]
  | _, _, _ => st

/-- RIPEMD-160 padding: like SHA-256 but with little-endian length. -/
def rmdPad (msg : List Nat) : List Nat :=
  let padLen := (64 - (msg.length + 9) % 64) % 64
  msg ++ [0x80] ++ List.replicate padLen 0 ++ leBytes 8 (msg.length * 8)

/-- RIPEMD-160 initial state. -/
def rmdInit : List Nat := [0x67452301, 0xefcdab89, 0x98badcfe, 0x10325476, 0xc3d2e1f0]

/-- RIPEMD-160 of a byte string, as 20 bytes. -/
def ripemd160 (msg : List Nat) : List Nat :=
  let st := ((chunks 64 (rmdPad msg)).foldl rmdCompress rmdInit)
  leBytes 4 (st.getD 0 0) ++ leBytes 4 (st.getD 1 0) ++ leBytes 4 (st.getD 2 0) ++
  leBytes 4 (st.getD 3 0) ++ leBytes 4 (st.getD 4 0)

/-- The hash160 digest RIPEMD160(SHA256(x)), the `XpubIdentifier` hash. -/
def hash160 (msg : List Nat) : List Nat := ripemd160 (sha256 msg)

/-! ## PBKDF2-HMAC-SHA512 (model of the BIP39 seed expansion done by the
`bip39` crate: `Seed::new(mnemonic, passphrase)`) -/

/-- One PBKDF2 round on the state (U, accumulator):
`U := HMAC(P, U)` and the accumulator xors in the new U. -/
def pbkdf2Step (password : List Nat) (st : List Nat × List Nat) : List Nat × List Nat :=
  let u2 := hmacSha512 password st.1
  (u2, List.zipWith (fun a b => a ^^^ b) st.2 u2)

/-- Iterates the PBKDF2 round (forcing each intermediate state). -/
def pbkdf2Iter (password : List Nat) : Nat → (List Nat × List Nat) → List Nat × List Nat
  | 0, st => st
  | c + 1, st =>
    let st2 := pbkdf2Step password st
    seqListNat st2.1 (seqListNat st2.2 (pbkdf2Iter password c st2))

/-- PBKDF2-HMAC-SHA512 with 2048 rounds producing one 64-byte block,
exactly the BIP39 parameterisation. -/
def pbkdf2Sha512Bip39 (password salt : List Nat) : List Nat :=
  let u1 := hmacSha512 password (salt ++ beBytes 4 1)
  (pbkdf2Iter password 2047 (u1, u1)).2

/-- BIP39 seed of a mnemonic phrase with empty passphrase: PBKDF2 with the
phrase bytes as password and the string mnemonic as salt. -/
def bip39SeedEmptyPass (phrase : List Char) : List Nat :=
  pbkdf2Sha512Bip39 (phrase.map Char.toNat) ("mnemonic".data.map Char.toNat)

/-! ## SM2 curve arithmetic (model of `libsm::sm2::ecc::EccCtx` and
`libsm::sm2::field::FieldCtx`) -/

/-- The SM2 coordinate-field prime p. -/
def sm2P : Nat := 0xFFFFFFFEFFFFFFFFFFFFFFFFFFFFFFFFFFFFFFFF00000000FFFFFFFFFFFFFFFF

/-- The SM2 curve coefficient a. -/
def sm2A : Nat := 0xFFFFFFFEFFFFFFFFFFFFFFFFFFFFFFFFFFFFFFFF00000000FFFFFFFFFFFFFFFC

/-- The SM2 curve coefficient b. -/
def sm2B : Nat := 0x28E9FA9E9D9F5E344D5A9E4BCF6509A7F39789F515AB8F92DDBCBD414D940E93

/-- The SM2 group order n. -/
def sm2N : Nat := 0xFFFFFFFEFFFFFFFFFFFFFFFFFFFFFFFF7203DF6B21C6052B53BBF40939D54123

/-- Generator x coordinate. -/
def sm2Gx : Nat := 0x32C4AE2C1F1981195F9904466A39C9948FE30BBFF2660BE1715A4589334C74C7

/-- Generator y coordinate. -/
def sm2Gy : Nat := 0xBC3736A2F4F6779C59BDCEE36B692153D0A9877CC62A474002DF32E52139F0A0

/-- Modular exponentiation, square-and-multiply with binary fuel. -/
def powModAux : Nat → Nat → Nat → Nat → Nat
  | 0, _, _, m => 1 % m
  | f + 1, b, e, m =>
    if e = 0 then 1 % m
    else
      let r := powModAux f ((b * b) % m) (e / 2) m
      if e % 2 = 1 then (b * r) % m else r

def powMod (b e m : Nat) : Nat := powModAux 300 b e m

/-- Inverse in the SM2 coordinate field (Fermat). -/
def sm2Inv (x : Nat) : Nat := powMod x (sm2P - 2) sm2P

/-- Affine point: `none` is the point at infinity. -/
abbrev Sm2Point := Option (Nat × Nat)

/-- Point doubling on the SM2 curve (affine formulas, coordinates kept
reduced modulo p). -/
def pDouble : Sm2Point → Sm2Point
  | none => none
  | some (x, y) =>
    if y % sm2P = 0 then none
    else
      let l := (((3 * x * x + sm2A) % sm2P) * sm2Inv ((2 * y) % sm2P)) % sm2P
      let x3 := (l * l + 2 * sm2P - 2 * (x % sm2P)) % sm2P
      let y3 := (l * ((x % sm2P + sm2P - x3) % sm2P) + sm2P * sm2P - y % sm2P) % sm2P
      some (x3, y3)

/-- Point addition on the SM2 curve (affine formulas). -/
def pAdd : Sm2Point → Sm2Point → Sm2Point
  | none, q => q
  | p, none => p
  | some (x1, y1), some (x2, y2) =>
    if x1 % sm2P = x2 % sm2P then
      if (y1 + y2) % sm2P = 0 then none else pDouble (some (x1, y1))
    else
      let l := (((y2 % sm2P + sm2P - y1 % sm2P) % sm2P) *
                sm2Inv ((x2 % sm2P + sm2P - x1 % sm2P) % sm2P)) % sm2P
      let x3 := (l * l + 2 * sm2P - x1 % sm2P - x2 % sm2P) % sm2P
      let y3 := (l * ((x1 % sm2P + sm2P - x3) % sm2P) + sm2P * sm2P - y1 % sm2P) % sm2P
      some (x3, y3)

/-- Jacobian projective point (X, Y, Z); Z = 0 is the point at infinity.
libsm performs its scalar multiplication in Jacobian coordinates as well;
the formulas below are the standard ones for a short Weierstrass curve. -/
abbrev JacPoint := Nat × Nat × Nat

/-- Jacobian doubling. -/
def jDouble (P : JacPoint) : JacPoint :=
  match P with
  | (x, y, z) =>
    if z % sm2P = 0 ∨ y % sm2P = 0 then (1, 1, 0)
    else
      let yy := (y * y) % sm2P
      let yyyy := (yy * yy) % sm2P
      let s := (4 * ((x * yy) % sm2P)) % sm2P
      let zz := (z * z) % sm2P
      let zzzz := (zz * zz) % sm2P
      let m := (3 * ((x * x) % sm2P) + (sm2A * zzzz) % sm2P) % sm2P
      let x2 := ((m * m) % sm2P + 2 * sm2P - 2 * s % sm2P) % sm2P
      let y2 := ((m * ((s + sm2P - x2) % sm2P)) % sm2P + sm2P - (8 * yyyy) % sm2P) % sm2P
      let z2 := ((2 * y) % sm2P * z) % sm2P
      (x2, y2, z2)

/-- Jacobian addition. -/
def jAdd (P Q : JacPoint) : JacPoint :=
  match P, Q with
  | (x1, y1, z1), (x2, y2, z2) =>
    if z1 % sm2P = 0 then Q
    else if z2 % sm2P = 0 then P
    else
      let z1z1 := (z1 * z1) % sm2P
      let z2z2 := (z2 * z2) % sm2P
      let u1 := (x1 * z2z2) % sm2P
      let u2 := (x2 * z1z1) % sm2P
      let s1 := ((y1 * z2) % sm2P * z2z2) % sm2P
      let s2 := ((y2 * z1) % sm2P * z1z1) % sm2P
      if u1 = u2 then
        (if s1 = s2 then jDouble P else (1, 1, 0))
      else
        let hd := (u2 + sm2P - u1) % sm2P
        let r := (s2 + sm2P - s1) % sm2P
        let hh := (hd * hd) % sm2P
        let hhh := (hh * hd) % sm2P
        let v := (u1 * hh) % sm2P
        let x3 := ((r * r) % sm2P + 2 * sm2P - hhh - 2 * v % sm2P) % sm2P
        let y3 := ((r * ((v + sm2P - x3) % sm2P)) % sm2P + sm2P - (s1 * hhh) % sm2P) % sm2P
        let z3 := ((z1 * z2) % sm2P * hd) % sm2P
        (x3, y3, z3)

/-- Affine to Jacobian. -/
def ofAffine : Sm2Point → JacPoint
  | none => (1, 1, 0)
  | some (x, y) => (x % sm2P, y % sm2P, 1)

/-- Jacobian to affine, with one field inversion. -/
def toAffinePt (P : JacPoint) : Sm2Point :=
  match P with
  | (x, y, z) =>
    if z % sm2P = 0 then none
    else
      let zi := sm2Inv (z % sm2P)
      let zi2 := (zi * zi) % sm2P
      some ((x * zi2) % sm2P, ((y * zi2) % sm2P * zi) % sm2P)

/-- Forces the three Jacobian coordinates (identity on `x`). -/
def jacSeq {α : Sort u} (P : JacPoint) (x : α) : α :=
  seqNat P.1 (seqNat P.2.1 (seqNat P.2.2 x))

/-- Double-and-add over the scalar bits, in Jacobian coordinates (forcing
each intermediate point). -/
def pMulAux : Nat → Nat → JacPoint → JacPoint → JacPoint
  | 0, _, _, acc => acc
  | f + 1, k, base, acc =>
    if k = 0 then acc
    else
      let base2 := jDouble base
      let acc2 := if k % 2 = 1 then jAdd acc base else acc
      jacSeq base2 (jacSeq acc2 (pMulAux f (k / 2) base2 acc2))

/-- Model of `EccCtx::mul_raw`: multiplication of a point by a raw 256-bit
integer scalar (no reduction modulo the group order). -/
def pMul (k : Nat) (pt : Sm2Point) : Sm2Point :=
  toAffinePt (pMulAux 300 k (ofAffine pt) (1, 1, 0))

/-- Multiplication of the generator. -/
def mulG (k : Nat) : Sm2Point := pMul k (some (sm2Gx, sm2Gy))

/-- The curve equation test. -/
def onCurve (x y : Nat) : Bool :=
  (y * y) % sm2P = (x * x * x + sm2A * x + sm2B) % sm2P

/-- Model of `EccCtx::bytes_to_point` for the uncompressed branch: expects
65 bytes led by 0x04 and rejects coordinate pairs that do not satisfy the
curve equation. -/
def eccBytesToPoint (b : List Nat) : Except Unit (Nat × Nat) :=
  if b.length = 65 ∧ b.headD 0 = 4 then
    let x := natOfBe ((b.drop 1).take 32)
    let y := natOfBe ((b.drop 33).take 32)
    if onCurve x y then .ok (x, y) else .error ()
  else .error ()

/-- Model of `EccCtx::point_to_bytes` (uncompressed): 0x04 then both
coordinates as 32 big-endian bytes; the zero point serialises from the
affine origin. -/
def eccPointToBytes : Sm2Point → List Nat
  | some (x, y) => 4 :: (beBytes 32 (x % sm2P) ++ beBytes 32 (y % sm2P))
  | none => 4 :: (beBytes 32 0 ++ beBytes 32 0)

/-- Model of `cita_sm2::KeyPair::from_privkey` followed by `.pubkey()`:
fails unless the scalar is in the range 1..n-1; otherwise the public key is
the 64-byte uncompressed encoding of sk times the generator. -/
def keyPairPubkey (sk : Nat) : Option (List Nat) :=
  if sk = 0 ∨ sm2N ≤ sk then none
  else match mulG sk with
    | some (x, y) => some (beBytes 32 x ++ beBytes 32 y)
    | none => none

/-- Model of reading two 32-byte strings as `FieldElem`s and adding them
with `FieldCtx::add` (sm2_bip32.rs lines 63..66): addition is performed in
the coordinate field of the curve, modulo p (not modulo the group order n),
and the result is written back as 32 bytes. -/
def fieldAddBytes (a b : List Nat) : List Nat :=
  beBytes 32 ((natOfBe a + natOfBe b) % sm2P)

/-! ## Error types

`KeyError` follows the enum in ecc.rs (plus the `InvalidSm2Key` variant that
sm2.rs and sm2_bip32.rs use).  `Bip32Error` models `bitcoin::util::bip32::Error`
and `Base58Error` models `bitcoin::util::base58::Error`; the crate-level
`Result` erases them into one failure type, modelled by `TcxError`. -/

inductive KeyError
  | InvalidEcdsa | InvalidChildNumberFormat | OverflowChildNumber
  | InvalidDerivationPathFormat | InvalidKeyLength | InvalidSignature
  | InvalidSignatureLength | InvalidChildNumber | CannotDeriveFromHardenedKey
  | CannotDeriveKey | InvalidBase58 | InvalidPrivateKey | InvalidPublicKey
  | InvalidMessage | InvalidRecoveryId | InvalidTweak | InvalidXpub | InvalidXprv
  | UnsupportedChain | NotEnoughMemory | Unknown | InvalidCurveType
  | InvalidSm2Key
  deriving DecidableEq, Repr

inductive Bip32Error
  | CannotDeriveFromHardenedKey
  | Ecdsa
  | InvalidChildNumber (index : Nat)
  | InvalidChildNumberFormat
  | InvalidDerivationPathFormat
  deriving DecidableEq, Repr

inductive Base58Error
  | BadByte (b : Nat)
  | BadChecksum
  | InvalidLength (len : Nat)
  | TooShort (len : Nat)
  deriving DecidableEq, Repr

inductive HexError
  | InvalidHexCharacter
  | OddLength
  deriving DecidableEq, Repr

inductive TcxError
  | key (e : KeyError)
  | bip32 (e : Bip32Error)
  | base58 (e : Base58Error)
  | hexErr (e : HexError)
  | bip39Err
  | starkErr
  deriving DecidableEq, Repr

/-! ## Child numbers (model of `bitcoin::util::bip32::ChildNumber`) -/

inductive ChildNumber
  | Normal (index : Nat)
  | Hardened (index : Nat)
  deriving DecidableEq, Repr

/-- The u32 wire value: hardened indices carry the top bit. -/
def ChildNumber.toU32 : ChildNumber → Nat
  | .Normal i => i
  | .Hardened i => i + 2147483648

/-- Conversion from a u32 value (`ChildNumber::from`): the top bit selects
hardened and is stripped from the index. -/
def ChildNumber.ofU32 (v : Nat) : ChildNumber :=
  if v < 2147483648 then .Normal v else .Hardened (v - 2147483648)

/-- Well-formedness of a child number as kept by the bitcoin constructors:
the stored index fits in 31 bits. -/
def ChildNumber.WF : ChildNumber → Prop
  | .Normal i => i < 2147483648
  | .Hardened i => i < 2147483648

instance : DecidablePred ChildNumber.WF := fun cn =>
  match cn with
  | .Normal _ => inferInstanceAs (Decidable (_ < _))
  | .Hardened _ => inferInstanceAs (Decidable (_ < _))

def ChildNumber.isHardenedCN : ChildNumber → Bool
  | .Normal _ => false
  | .Hardened _ => true

/-! ## SM2 key types (sm2.rs) -/

/-- `Sm2PrivateKey` wraps a cita `PrivKey` (H256): 32 raw bytes. -/
structure Sm2PrivateKey where
  bytes : List Nat
  deriving DecidableEq, Repr

/-- `Sm2PublicKey` wraps a cita `PubKey` (H512): 64 raw bytes. -/
structure Sm2PublicKey where
  bytes : List Nat
  deriving DecidableEq, Repr

/-- `Sm2PrivateKey::from_slice` (sm2.rs): rejects slices whose length is
not 32 with `InvalidSm2Key`; performs no range check on the scalar. -/
def Sm2PrivateKey.from_slice (data : List Nat) : Except TcxError Sm2PrivateKey :=
  if data.length = 32 then .ok ⟨data⟩ else .error (.key .InvalidSm2Key)

def Sm2PrivateKey.to_bytes (sk : Sm2PrivateKey) : List Nat := sk.bytes

/-- `Sm2PrivateKey::public_key` (sm2.rs): calls
`KeyPair::from_privkey(..).unwrap()`; the unwrap of an invalid scalar is a
panic, modelled by `none`. -/
def Sm2PrivateKey.public_key (sk : Sm2PrivateKey) : Option Sm2PublicKey :=
  (keyPairPubkey (natOfBe sk.bytes)).map Sm2PublicKey.mk

/-- `Sm2PrivateKey::sign` (sm2.rs): rejects messages that are not exactly
32 bytes with `InvalidMessage`, then defers to the external cita_sm2
signature primitive (a parameter of the model, since it consumes
randomness), mapping its failure to `InvalidRecoveryId`. -/
def Sm2PrivateKey.sign (citaSign : List Nat → List Nat → Option (List Nat))
    (sk : Sm2PrivateKey) (data : List Nat) : Except TcxError (List Nat) :=
  if data.length ≠ 32 then .error (.key .InvalidMessage)
  else match citaSign sk.bytes data with
    | some sig => .ok sig
    | none => .error (.key .InvalidRecoveryId)

/-- `Sm2PrivateKey::sign_recoverable` (sm2.rs): the body is exactly
`self.sign(data)`. -/
def Sm2PrivateKey.sign_recoverable (citaSign : List Nat → List Nat → Option (List Nat))
    (sk : Sm2PrivateKey) (data : List Nat) : Except TcxError (List Nat) :=
  Sm2PrivateKey.sign citaSign sk data

/-- `Sm2PublicKey::from_slice` (sm2.rs): wraps `PubKey::from_slice`, which
asserts that the slice is exactly 64 bytes (H512) — any other length is a
panic, modelled by `none`.  The bytes are stored with no curve check. -/
def Sm2PublicKey.from_slice (data : List Nat) : Option (Except TcxError Sm2PublicKey) :=
  if data.length = 64 then some (.ok ⟨data⟩) else none

def Sm2PublicKey.to_bytes (pk : Sm2PublicKey) : List Nat := pk.bytes

/-! ## Extended keys (sm2_bip32.rs) -/

structure Sm2ExtendedPrivKey where
  depth : Nat
  parent_fingerprint : List Nat
  child_number : ChildNumber
  private_key : Sm2PrivateKey
  chain_code : List Nat
  deriving DecidableEq, Repr

structure Sm2ExtendedPubKey where
  depth : Nat
  parent_fingerprint : List Nat
  child_number : ChildNumber
  public_key : Sm2PublicKey
  chain_code : List Nat
  deriving DecidableEq, Repr

/-- `Sm2ExtendedPubKey::identifier`: hash160 of the public key bytes
(`XpubIdentifier`). -/
def Sm2ExtendedPubKey.identifier (k : Sm2ExtendedPubKey) : List Nat :=
  hash160 k.public_key.to_bytes

/-- `Sm2ExtendedPubKey::fingerprint`: first four identifier bytes. -/
def Sm2ExtendedPubKey.fingerprint (k : Sm2ExtendedPubKey) : List Nat :=
  k.identifier.take 4

/-- `Sm2ExtendedPubKey::from_private`: copies the metadata and computes the
public key; `none` models the panic inside `Sm2PrivateKey::public_key` when
the scalar is outside 1..n-1. -/
def Sm2ExtendedPubKey.from_private (sk : Sm2ExtendedPrivKey) : Option Sm2ExtendedPubKey :=
  (sk.private_key.public_key).map (fun pk =>
    { depth := sk.depth, parent_fingerprint := sk.parent_fingerprint,
      child_number := sk.child_number, public_key := pk, chain_code := sk.chain_code })

/-- `Sm2ExtendedPrivKey::fingerprint` goes through `from_private`, so it can
panic on an invalid scalar. -/
def Sm2ExtendedPrivKey.fingerprint (k : Sm2ExtendedPrivKey) : Option (List Nat) :=
  (Sm2ExtendedPubKey.from_private k).map Sm2ExtendedPubKey.fingerprint

/-- `Sm2ExtendedPrivKey::ckd_priv` (sm2_bip32.rs lines 43..76).  For a
normal index the HMAC input is the parent public key (whose computation can
fail and is surfaced as `InvalidSm2Key`); for a hardened index it is
`0x00 || parent scalar`.  The child scalar is the coordinate-field sum of
the left HMAC half and the parent scalar.  The u8 depth increment is
modelled with wraparound (release-mode semantics).  `none` models the panic
inside `self.fingerprint()`. -/
def Sm2ExtendedPrivKey.ckd_priv (self : Sm2ExtendedPrivKey) (i : ChildNumber) :
    Option (Except TcxError Sm2ExtendedPrivKey) :=
  let hmacData : Except TcxError (List Nat) :=
    match i with
    | .Normal _ =>
      match keyPairPubkey (natOfBe self.private_key.bytes) with
      | some pub => .ok pub
      | none => .error (.key .InvalidSm2Key)
    | .Hardened _ => .ok (0 :: self.private_key.to_bytes)
  match hmacData with
  | .error e => some (.error e)
  | .ok d =>
    let hmac := hmacSha512 self.chain_code (d ++ beBytes 4 i.toU32)
    match Sm2PrivateKey.from_slice (hmac.take 32) with
    | .error _ => some (.error (.key .InvalidSm2Key))
    | .ok sk1 =>
      let scalarBytes := fieldAddBytes sk1.to_bytes self.private_key.to_bytes
      match Sm2PrivateKey.from_slice scalarBytes with
      | .error _ => some (.error (.key .InvalidSm2Key))
      | .ok sk2 =>
        match self.fingerprint with
        | none => none
        | some fp => some (.ok
            { depth := (self.depth + 1) % 256, parent_fingerprint := fp,
              child_number := i, private_key := sk2, chain_code := hmac.drop 32 })

/-- `Sm2ExtendedPrivKey::derive_priv`: left fold of `ckd_priv` over the
path. -/
def Sm2ExtendedPrivKey.derive_priv (self : Sm2ExtendedPrivKey) :
    List ChildNumber → Option (Except TcxError Sm2ExtendedPrivKey)
  | [] => some (.ok self)
  | i :: rest =>
    match self.ckd_priv i with
    | none => none
    | some (.error e) => some (.error e)
    | some (.ok k) => k.derive_priv rest

/-- `Sm2ExtendedPubKey::ckd_pub_tweak` (sm2_bip32.rs lines 121..138):
hardened indices fail with `CannotDeriveFromHardenedKey`; normal indices
produce the left HMAC half as a tweak scalar and the right half as the
child chain code. -/
def Sm2ExtendedPubKey.ckd_pub_tweak (self : Sm2ExtendedPubKey) (i : ChildNumber) :
    Except TcxError (Sm2PrivateKey × List Nat) :=
  match i with
  | .Hardened _ => .error (.key .CannotDeriveFromHardenedKey)
  | .Normal n =>
    let hmac := hmacSha512 self.chain_code (self.public_key.to_bytes ++ beBytes 4 n)
    match Sm2PrivateKey.from_slice (hmac.take 32) with
    | .error _ => .error (.key .InvalidSm2Key)
    | .ok sk => .ok (sk, hmac.drop 32)

/-- `Sm2ExtendedPubKey::ckd_pub` (sm2_bip32.rs lines 140..163): parses the
stored 64 bytes as an uncompressed point (failing with `InvalidSm2Key` when
off curve), adds the tweak times the generator, and re-serialises.  `none`
models the panic of `PubKey::from_slice` on a wrong length (unreachable,
the encoding is 64 bytes). -/
def Sm2ExtendedPubKey.ckd_pub (self : Sm2ExtendedPubKey) (i : ChildNumber) :
    Option (Except TcxError Sm2ExtendedPubKey) :=
  match self.ckd_pub_tweak i with
  | .error e => some (.error e)
  | .ok (sk, cc) =>
    match eccBytesToPoint (4 :: self.public_key.to_bytes) with
    | .error _ => some (.error (.key .InvalidSm2Key))
    | .ok pt =>
      let point1 := mulG (natOfBe sk.to_bytes)
      let finPoint := pAdd (some pt) point1
      match Sm2PublicKey.from_slice ((eccPointToBytes finPoint).drop 1) with
      | none => none
      | some (.error _) => some (.error (.key .InvalidSm2Key))
      | some (.ok pk) => some (.ok
          { depth := (self.depth + 1) % 256, parent_fingerprint := self.fingerprint,
            child_number := i, public_key := pk, chain_code := cc })

/-- `Sm2ExtendedPubKey::derive_pub`: left fold of `ckd_pub`. -/
def Sm2ExtendedPubKey.derive_pub (self : Sm2ExtendedPubKey) :
    List ChildNumber → Option (Except TcxError Sm2ExtendedPubKey)
  | [] => some (.ok self)
  | i :: rest =>
    match self.ckd_pub i with
    | none => none
    | some (.error e) => some (.error e)
    | some (.ok k) => k.derive_pub rest

/-! ## Root construction and string derivation (sm2_bip32.rs lines 176..237)

The newtype wrappers `Bip32Sm2DeterministicPrivateKey` and
`Bip32Sm2DeterministicPublicKey` are transparent in this model: the
functions below act on the wrapped extended keys directly. -/

/-- `Bip32Sm2DeterministicPrivateKey::from_seed` (lines 182..194):
`I = HMAC-SHA512(key = b"Cita seed", data = seed)`; the left half is the
master scalar, the right half the chain code; depth 0, default (all-zero)
parent fingerprint, child number `from_normal_idx(0)`. -/
def Bip32Sm2.from_seed (seed : List Nat) : Except TcxError Sm2ExtendedPrivKey :=
  let hmac := hmacSha512 ("Cita seed".data.map Char.toNat) seed
  match Sm2PrivateKey.from_slice (hmac.take 32) with
  | .error _ => .error (.key .InvalidSm2Key)
  | .ok sk => .ok
      { depth := 0, parent_fingerprint := [0, 0, 0, 0],
        child_number := .Normal 0, private_key := sk, chain_code := hmac.drop 32 }

/-- `Bip32Sm2DeterministicPrivateKey::from_mnemonic` (lines 196..200): the
external bip39 crate parses and validates the phrase (wordlist membership
and checksum) and expands the seed with empty passphrase; then
`from_seed`.  The external expansion is a parameter of the model
(`bip39SeedEmptyPass` above is its reference implementation); `none` is a
rejected phrase. -/
def Bip32Sm2.from_mnemonic (bip39Expand : List Char → Option (List Nat))
    (phrase : List Char) : Except TcxError Sm2ExtendedPrivKey :=
  match bip39Expand phrase with
  | some seed => Bip32Sm2.from_seed seed
  | none => .error .bip39Err

/-- Rust `str::parse::<u32>`: an optional leading plus sign, then one or
more decimal digits, rejecting values at or above 2^32. -/
def parseU32 (s : List Char) : Option Nat :=
  let ds := match s with
    | '+' :: rest => rest
    | _ => s
  if ds = [] then none
  else if ds.all Char.isDigit then
    let v := ds.foldl (fun acc c => acc * 10 + (c.toNat - 48)) 0
    if v < 4294967296 then some v else none
  else none

/-- The apostrophe character marking hardened components. -/
def hardenedMark : Char := Char.ofNat 39

/-- `FromStr for bitcoin::util::bip32::ChildNumber`: a trailing apostrophe
or h selects hardened; the remainder must parse as u32 (failure:
`InvalidChildNumberFormat`) and fit in 31 bits (failure:
`InvalidChildNumber`). -/
def childNumberFromStr (s : List Char) : Except TcxError ChildNumber :=
  let isH : Bool := match s.getLast? with
    | some c => c == hardenedMark || c == 'h'
    | none => false
  if isH then
    match parseU32 s.dropLast with
    | none => .error (.bip32 .InvalidChildNumberFormat)
    | some v =>
      if v < 2147483648 then .ok (.Hardened v)
      else .error (.bip32 (.InvalidChildNumber v))
  else
    match parseU32 s with
    | none => .error (.bip32 .InvalidChildNumberFormat)
    | some v =>
      if v < 2147483648 then .ok (.Normal v)
      else .error (.bip32 (.InvalidChildNumber v))

/-- `str::split` on the slash separator, keeping empty segments (a split
always yields at least one segment). -/
def splitSlash (s : List Char) : List (List Char) :=
  s.foldr
    (fun c acc =>
      if c = '/' then [] :: acc
      else match acc with
        | h :: t => (c :: h) :: t
        | [] => [[c]])
    [[]]

/-- `Iterator::collect` over fallible child-number parses: stops at the
first failing component. -/
def parsePathComponents : List (List Char) → Except TcxError (List ChildNumber)
  | [] => .ok []
  | p :: rest =>
    match childNumberFromStr p with
    | .error e => .error e
    | .ok cn =>
      match parsePathComponents rest with
      | .error e => .error e
      | .ok cns => .ok (cn :: cns)

/-- Strips one leading `m` segment as both `derive` impls do. -/
def stripM (parts : List (List Char)) : List (List Char) :=
  match parts with
  | p :: rest => if p = ['m'] then rest else parts
  | [] => parts

/-- `Derive for Bip32Sm2DeterministicPrivateKey` (lines 203..219). -/
def Bip32Sm2.derivePrivStr (self : Sm2ExtendedPrivKey) (path : List Char) :
    Option (Except TcxError Sm2ExtendedPrivKey) :=
  match parsePathComponents (stripM (splitSlash path)) with
  | .error e => some (.error e)
  | .ok nums => self.derive_priv nums

/-- `Derive for Bip32Sm2DeterministicPublicKey` (lines 221..237). -/
def Bip32Sm2.derivePubStr (self : Sm2ExtendedPubKey) (path : List Char) :
    Option (Except TcxError Sm2ExtendedPubKey) :=
  match parsePathComponents (stripM (splitSlash path)) with
  | .error e => some (.error e)
  | .ok nums => self.derive_pub nums

/-! ## Hex codec (model of the `hex` crate used by ToHex/FromHex) -/

/-- Lower-case hex digits. -/
def hexDigits : List Char := "0123456789abcdef".data

/-- Hex encoding of a byte string (lower case). -/
def hexEncode (l : List Nat) : List Char :=
  l.foldr (fun b acc => hexDigits.getD (b / 16 % 16) 'x' :: hexDigits.getD (b % 16) 'x' :: acc) []

/-- Value of one hex digit, accepting both cases. -/
def hexVal (c : Char) : Option Nat :=
  if c.isDigit then some (c.toNat - 48)
  else if 97 ≤ c.toNat ∧ c.toNat ≤ 102 then some (c.toNat - 87)
  else if 65 ≤ c.toNat ∧ c.toNat ≤ 70 then some (c.toNat - 55)
  else none

/-- `hex::decode`: fails on odd length or a non-hex character. -/
def hexDecode : List Char → Except TcxError (List Nat)
  | [] => .ok []
  | [_] => .error (.hexErr .OddLength)
  | c1 :: c2 :: rest =>
    match hexVal c1, hexVal c2 with
    | some h, some lo =>
      match hexDecode rest with
      | .ok tl => .ok ((h * 16 + lo) :: tl)
      | .error e => .error e
    | _, _ => .error (.hexErr .InvalidHexCharacter)

/-! ## ToHex / FromHex for Bip32Sm2DeterministicPublicKey
(sm2_bip32.rs lines 275..310) -/

/-- `ToHex::to_hex`: 105 bytes `depth || fingerprint || child_number_be ||
chain_code || public_key`, hex encoded.  `none` models the
`copy_from_slice` panics when a field does not have its fixed length. -/
def Bip32Sm2.toHexPub (k : Sm2ExtendedPubKey) : Option (List Char) :=
  if k.parent_fingerprint.length = 4 ∧ k.chain_code.length = 32 ∧
     k.public_key.bytes.length = 64 then
    some (hexEncode ([k.depth % 256] ++ k.parent_fingerprint ++
      beBytes 4 k.child_number.toU32 ++ k.chain_code ++ k.public_key.bytes))
  else none

/-- `FromHex::from_hex`: decodes, requires exactly 105 bytes (otherwise
`InvalidBase58`), and reassembles the extended public key. -/
def Bip32Sm2.fromHexPub (s : List Char) : Except TcxError Sm2ExtendedPubKey :=
  match hexDecode s with
  | .error e => .error e
  | .ok data =>
    if data.length = 105 then
      match Sm2PublicKey.from_slice ((data.drop 41).take 64) with
      | some (.ok pk) => .ok
          { depth := data.headD 0, parent_fingerprint := (data.drop 1).take 4,
            child_number := ChildNumber.ofU32 (natOfBe ((data.drop 5).take 4)),
            chain_code := (data.drop 9).take 32, public_key := pk }
      | _ => .error (.key .InvalidSm2Key)
    else .error (.key .InvalidBase58)

/-! ## Base58check (model of `bitcoin::util::base58`) -/

/-- The base58 alphabet. -/
def b58Alphabet : List Char := "123456789ABCDEFGHJKLMNPQRSTUVWXYZabcdefghijkmnopqrstuvwxyz".data

/-- Digit to character. -/
def b58Char (d : Nat) : Char := b58Alphabet.getD d 'x'

/-- Character to digit. -/
def b58Val (c : Char) : Option Nat := b58Alphabet.indexOf? c

/-- Little-endian digits of `n` in base `b`, fuel-driven, stopping at 0. -/
def natToBaseLE (b : Nat) : Nat → Nat → List Nat
  | 0, _ => []
  | f + 1, n => if n = 0 then [] else n % b :: natToBaseLE b f (n / b)

/-- Value of a little-endian digit list. -/
def ofBaseLE (b : Nat) (l : List Nat) : Nat := l.foldr (fun d acc => d + b * acc) 0

/-- Minimal big-endian base-256 expansion of `n`. -/
def minimalBe (n : Nat) : List Nat := (natToBaseLE 256 n n).reverse

/-- `base58::encode_slice`: leading zero bytes become leading `1`
characters; the remainder is the big-endian base58 expansion of the
payload value. -/
def b58Encode (data : List Nat) : List Char :=
  let zeros := data.takeWhile (fun b => b = 0)
  let n := natOfBe data
  zeros.map (fun _ => b58Char 0) ++ ((natToBaseLE 58 n n).reverse).map b58Char

/-- Folds base58 characters into a value, failing on a bad character. -/
def b58Fold : List Char → Option Nat → Option Nat
  | [], acc => acc
  | c :: rest, acc =>
    match acc, b58Val c with
    | some a, some d => b58Fold rest (some (a * 58 + d))
    | _, _ => none

/-- `base58::from`: leading `1` characters become leading zero bytes; the
remainder is decoded as a big-endian base58 value. -/
def b58Decode (s : List Char) : Except TcxError (List Nat) :=
  let ones := s.takeWhile (fun c => c = b58Char 0)
  let rest := s.dropWhile (fun c => c = b58Char 0)
  match b58Fold rest (some 0) with
  | none => .error (.base58 (.BadByte 0))
  | some n => .ok (ones.map (fun _ => 0) ++ minimalBe n)

/-- The four-byte double-SHA256 checksum. -/
def sha256dChecksum (data : List Nat) : List Nat := (sha256 (sha256 data)).take 4

/-- `base58::check_encode_slice`: append the checksum, then encode. -/
def b58CheckEncode (data : List Nat) : List Char :=
  b58Encode (data ++ sha256dChecksum data)

/-- `base58::from_check`: decode, demand at least 4 bytes, verify the
checksum, and strip it. -/
def b58FromCheck (s : List Char) : Except TcxError (List Nat) :=
  match b58Decode s with
  | .error e => .error e
  | .ok data =>
    if data.length < 4 then .error (.base58 (.TooShort data.length))
    else
      let payload := data.take (data.length - 4)
      if sha256dChecksum payload = data.drop (data.length - 4) then .ok payload
      else .error (.base58 .BadChecksum)

/-! ## Ss58Codec for the SM2 extended keys (sm2_bip32.rs lines 312..390) -/

/-- `to_ss58check_with_version` for the public key: 109 bytes
`version(4) || depth || fingerprint(4) || child_number_be(4) ||
chain_code(32) || public_key(64)`, base58check encoded.  `none` models the
`copy_from_slice` panics on wrongly sized fields. -/
def Bip32Sm2.toSs58Pub (k : Sm2ExtendedPubKey) (version : List Nat) : Option (List Char) :=
  if version.length = 4 ∧ k.parent_fingerprint.length = 4 ∧
     k.chain_code.length = 32 ∧ k.public_key.bytes.length = 64 then
    some (b58CheckEncode (version ++ [k.depth % 256] ++ k.parent_fingerprint ++
      beBytes 4 k.child_number.toU32 ++ k.chain_code ++ k.public_key.bytes))
  else none

/-- `from_ss58check_with_version` for the public key: decodes base58check,
requires 109 bytes (else `InvalidBase58`), reassembles the key and returns
it with the 4 version bytes. -/
def Bip32Sm2.fromSs58Pub (s : List Char) :
    Except TcxError (Sm2ExtendedPubKey × List Nat) :=
  match b58FromCheck s with
  | .error e => .error e
  | .ok data =>
    if data.length = 109 then
      match Sm2PublicKey.from_slice ((data.drop 45).take 64) with
      | some (.ok pk) => .ok
          ({ depth := data.getD 4 0, parent_fingerprint := (data.drop 5).take 4,
             child_number := ChildNumber.ofU32 (natOfBe ((data.drop 9).take 4)),
             chain_code := (data.drop 13).take 32, public_key := pk },
           data.take 4)
      | _ => .error (.key .InvalidSm2Key)
    else .error (.key .InvalidBase58)

/-- `to_ss58check_with_version` for the private key: 78 bytes
`version(4) || depth || fingerprint(4) || child_number_be(4) ||
chain_code(32) || 0x00 || scalar(32)`. -/
def Bip32Sm2.toSs58Priv (k : Sm2ExtendedPrivKey) (version : List Nat) : Option (List Char) :=
  if version.length = 4 ∧ k.parent_fingerprint.length = 4 ∧
     k.chain_code.length = 32 ∧ k.private_key.bytes.length = 32 then
    some (b58CheckEncode (version ++ [k.depth % 256] ++ k.parent_fingerprint ++
      beBytes 4 k.child_number.toU32 ++ k.chain_code ++ [0] ++ k.private_key.bytes))
  else none

/-- `from_ss58check_with_version` for the private key: requires 78 bytes
(else the base58 `InvalidLength` error), skips the zero pad byte at
offset 45, and reads the scalar from bytes 46..78. -/
def Bip32Sm2.fromSs58Priv (s : List Char) :
    Except TcxError (Sm2ExtendedPrivKey × List Nat) :=
  match b58FromCheck s with
  | .error e => .error e
  | .ok data =>
    if data.length = 78 then
      match Sm2PrivateKey.from_slice ((data.drop 46).take 32) with
      | .ok sk => .ok
          ({ depth := data.getD 4 0, parent_fingerprint := (data.drop 5).take 4,
             child_number := ChildNumber.ofU32 (natOfBe ((data.drop 9).take 4)),
             chain_code := (data.drop 13).take 32, private_key := sk },
           data.take 4)
      | .error _ => .error (.key .InvalidSm2Key)
    else .error (.base58 (.InvalidLength data.length))

/-! ## Typed keys and dispatch (ecc.rs lines 105..187) -/

/-- Modelled from the spec: the curve identifiers of the adapters the
specification names (an SM2 adapter, a Starknet adapter, and a
secp256k1-class adapter).  The concrete `CurveType` enum lives in
tcx-constants/src/curve.rs, which is not among the provided sources. -/
inductive CurveType
  | SECP256k1 | SM2 | Starknet
  deriving DecidableEq, Repr

/-- The secp256k1 group order. -/
def secpOrder : Nat := 0xFFFFFFFFFFFFFFFFFFFFFFFFFFFFFFFEBAAEDCE6AF48A03BBFD25E8CD0364141

/-- Modelled from the spec: `Secp256k1PrivateKey::from_slice` fails with a
key error when the scalar length or range is invalid (the secp256k1
adapter source file is not among the provided sources). -/
def secp256k1PrivFromSlice (data : List Nat) : Except TcxError (List Nat) :=
  if data.length = 32 ∧ natOfBe data ≠ 0 ∧ natOfBe data < secpOrder then .ok data
  else .error (.key .InvalidPrivateKey)

/-- `TypedPrivateKey` (ecc.rs): a closed variant set with, in the source,
only the Secp256k1 arm implemented. -/
inductive TypedPrivateKey
  | Secp256k1 (sk : List Nat)
  deriving DecidableEq, Repr

/-- `KeyManage::private_key_from_slice` (ecc.rs lines 170..177): only the
SECP256k1 arm constructs a key; every other curve type falls into the
wildcard arm, which is a panic (modelled by `none`). -/
def KeyManage.private_key_from_slice (curve : CurveType) (data : List Nat) :
    Option (Except TcxError TypedPrivateKey) :=
  match curve with
  | .SECP256k1 => some ((secp256k1PrivFromSlice data).map .Secp256k1)
  | _ => none

/-! ## Starknet adapter (starknet_curve.rs) -/

/-- The Stark field prime. -/
def starkPrime : Nat := 2 ^ 251 + 17 * 2 ^ 192 + 1

/-- Model of `FieldElement::from_byte_slice_be`: accepts at most 32 bytes
whose big-endian value is below the Stark prime. -/
def starkFeltFromBytes (data : List Nat) : Option Nat :=
  if data.length ≤ 32 ∧ natOfBe data < starkPrime then some (natOfBe data) else none

/-- `StarknetPrivateKey::sign` (starknet_curve.rs lines 36..43): parses the
message as a field element, defers to the external deterministic ECDSA
primitive of starknet_signers (a parameter of the model), and serialises
`r || s` as two 32-byte big-endian halves. -/
def StarknetPrivateKey.sign (ecdsaSign : Nat → Nat → Option (Nat × Nat))
    (sk : Nat) (data : List Nat) : Except TcxError (List Nat) :=
  match starkFeltFromBytes data with
  | none => .error .starkErr
  | some msg =>
    match ecdsaSign sk msg with
    | none => .error .starkErr
    | some (r, s) => .ok (beBytes 32 r ++ beBytes 32 s)

/-- `StarknetPrivateKey::sign_recoverable` (starknet_curve.rs lines
45..47): the body is exactly `self.sign(data)`. -/
def StarknetPrivateKey.sign_recoverable (ecdsaSign : Nat → Nat → Option (Nat × Nat))
    (sk : Nat) (data : List Nat) : Except TcxError (List Nat) :=
  StarknetPrivateKey.sign ecdsaSign sk data

/-- `StarknetPublicKey::from_slice` (starknet_curve.rs lines 54..58): any
byte slice that parses as a field element is accepted as a public key,
with no curve-membership check. -/
def StarknetPublicKey.from_slice (data : List Nat) : Except TcxError Nat :=
  match starkFeltFromBytes data with
  | none => .error .starkErr
  | some v => .ok v

deriving instance DecidableEq for Except

/-! ## Concrete claim inputs and well-formedness predicates -/

/-- A parent at the maximal u8 depth 255, with a valid scalar. -/
def c6Parent : Sm2ExtendedPrivKey :=
  { depth := 255, parent_fingerprint := [0, 0, 0, 0], child_number := .Normal 0,
    private_key := ⟨beBytes 32 1⟩, chain_code := List.replicate 32 0 }

/-- Witness parent for C6, at depth 0. -/
def c6wParent : Sm2ExtendedPrivKey :=
  { depth := 0, parent_fingerprint := [0, 0, 0, 0], child_number := .Normal 0,
    private_key := ⟨beBytes 32 1⟩, chain_code := List.replicate 32 0 }

/-- The hardened child of the witness parent. -/
def c6wChild : Sm2ExtendedPrivKey :=
  match c6wParent.ckd_priv (.Hardened 0) with
  | some (.ok c) => c
  | _ => c6wParent

/-- An extended public key whose stored 64 bytes are not an on-curve
point (the all-zero string), as `Sm2PublicKey::from_slice` accepts. -/
def c3Key : Sm2ExtendedPubKey :=
  { depth := 0, parent_fingerprint := [0, 0, 0, 0], child_number := .Normal 0,
    public_key := ⟨List.replicate 64 0⟩, chain_code := List.replicate 32 0 }

/-- A concrete extended private key for exercising string derivation. -/
def c9PrivKey : Sm2ExtendedPrivKey :=
  { depth := 0, parent_fingerprint := [0, 0, 0, 0], child_number := .Normal 0,
    private_key := ⟨beBytes 32 1⟩, chain_code := List.replicate 32 0 }

/-- A concrete extended public key for exercising string derivation. -/
def c9PubKey : Sm2ExtendedPubKey :=
  { depth := 0, parent_fingerprint := [0, 0, 0, 0], child_number := .Normal 0,
    public_key := ⟨List.replicate 64 0⟩, chain_code := List.replicate 32 0 }

/-- The test mnemonic phrase. -/
def c2Phrase : List Char :=
  "inject kidney empty canal shadow pact comfort wife crush horse wife sketch".data

/-- The four test paths from the repository test `derive_public_sm2_keys`
(the apostrophe is `hardenedMark`). -/
def c2Path1 : List Char :=
  "m/44".data ++ [hardenedMark] ++ "/0".data ++ [hardenedMark] ++ "/0".data ++
    [hardenedMark] ++ "/0/0".data

def c2Path2 : List Char :=
  "m/44".data ++ [hardenedMark] ++ "/0".data ++ [hardenedMark] ++ "/0".data ++
    [hardenedMark] ++ "/0/1".data

def c2Path3 : List Char :=
  "m/44".data ++ [hardenedMark] ++ "/0".data ++ [hardenedMark] ++ "/0".data ++
    [hardenedMark] ++ "/1/0".data

def c2Path4 : List Char :=
  "m/44".data ++ [hardenedMark] ++ "/0".data ++ [hardenedMark] ++ "/0".data ++
    [hardenedMark] ++ "/1/1".data

/-- The test pipeline: root from the mnemonic, derive the path, take the
private key, compute its public key, hex encode — exactly
`esk.derive(path).private_key().public_key().to_bytes()` hex encoded. -/
def c2PubHex (bip39Expand : List Char → Option (List Nat)) (path : List Char) :
    Option (List Char) :=
  match Bip32Sm2.from_mnemonic bip39Expand c2Phrase with
  | .ok root =>
    match Bip32Sm2.derivePrivStr root path with
    | some (.ok k) => (Sm2PrivateKey.public_key k.private_key).map
        (fun pk => hexEncode pk.to_bytes)
    | _ => none
  | .error _ => none

/-- The BIP39 seed of the test phrase with empty passphrase: the value of
the reference expansion model `bip39SeedEmptyPass c2Phrase` (the canonical
BIP39 vector for this phrase), taken as a hypothesis about the external
bip39 crate in the C2 theorem below. -/
def c2Seed : List Nat := [238, 63, 206, 60, 207, 5, 162, 181, 140, 133, 30, 50, 16, 119, 166, 62, 226, 17, 50, 53, 17, 42, 22, 252, 120, 61, 193, 98, 121, 255, 129, 138, 84, 159, 247, 53, 172, 68, 6, 198, 36, 35, 93, 178, 211, 113, 8, 227, 76, 108, 190, 133, 60, 190, 9, 235, 158, 35, 105, 230, 221, 28, 90, 170]

/-- The root extended private key of the test seed. -/
def c2Root : Sm2ExtendedPrivKey := { depth := 0, parent_fingerprint := [0, 0, 0, 0], child_number := ChildNumber.Normal 0, private_key := { bytes := [117, 140, 183, 54, 143, 137, 25, 126, 216, 159, 192, 146, 60, 78, 188, 238, 122, 116, 25, 149, 17, 185, 131, 151, 224, 45, 136, 99, 158, 24, 143, 27] }, chain_code := [107, 138, 249, 152, 72, 74, 78, 125, 60, 254, 243, 164, 236, 139, 240, 152, 141, 191, 30, 58, 244, 103, 119, 247, 155, 56, 178, 235, 34, 135, 228, 246] }

/-- Intermediate extended private key of the test derivation tree. -/
def c2NodeA : Sm2ExtendedPrivKey := { depth := 1, parent_fingerprint := [118, 240, 75, 42], child_number := ChildNumber.Hardened 44, private_key := { bytes := [168, 77, 50, 35, 221, 209, 3, 50, 221, 184, 60, 243, 226, 186, 163, 28, 53, 70, 253, 80, 80, 14, 69, 84, 129, 2, 89, 184, 80, 199, 240, 202] }, chain_code := [217, 24, 68, 162, 38, 6, 13, 62, 177, 177, 39, 14, 11, 27, 236, 211, 80, 30, 2, 61, 161, 18, 181, 109, 65, 86, 12, 145, 38, 200, 48, 255] }

/-- Intermediate extended private key of the test derivation tree. -/
def c2NodeB : Sm2ExtendedPrivKey := { depth := 2, parent_fingerprint := [247, 52, 141, 126], child_number := ChildNumber.Hardened 0, private_key := { bytes := [5, 242, 47, 6, 204, 181, 0, 143, 186, 173, 6, 105, 226, 148, 12, 23, 170, 47, 74, 95, 43, 142, 4, 167, 182, 94, 237, 201, 25, 229, 183, 251] }, chain_code := [233, 213, 123, 28, 216, 244, 245, 190, 14, 4, 7, 29, 105, 176, 40, 149, 188, 117, 128, 91, 112, 146, 69, 110, 15, 44, 235, 197, 34, 50, 162, 0] }

/-- Intermediate extended private key of the test derivation tree. -/
def c2NodeC : Sm2ExtendedPrivKey := { depth := 3, parent_fingerprint := [118, 245, 126, 166], child_number := ChildNumber.Hardened 0, private_key := { bytes := [147, 6, 213, 81, 207, 22, 64, 51, 1, 133, 81, 150, 127, 104, 153, 134, 109, 120, 87, 136, 166, 20, 153, 29, 119, 155, 24, 92, 171, 98, 212, 153] }, chain_code := [82, 23, 190, 3, 145, 235, 177, 246, 122, 177, 255, 234, 210, 109, 25, 60, 188, 39, 101, 130, 4, 55, 161, 89, 26, 228, 172, 128, 190, 169, 114, 34] }

/-- Intermediate extended private key of the test derivation tree. -/
def c2NodeD0 : Sm2ExtendedPrivKey := { depth := 4, parent_fingerprint := [112, 219, 234, 255], child_number := ChildNumber.Normal 0, private_key := { bytes := [150, 182, 164, 159, 248, 239, 21, 133, 179, 69, 196, 115, 212, 76, 202, 127, 15, 31, 87, 208, 248, 98, 221, 109, 188, 142, 86, 155, 11, 108, 214, 87] }, chain_code := [32, 157, 167, 230, 64, 191, 175, 138, 240, 169, 25, 93, 50, 236, 134, 91, 92, 10, 244, 123, 111, 72, 40, 153, 182, 59, 56, 189, 81, 79, 206, 44] }

/-- Intermediate extended private key of the test derivation tree. -/
def c2NodeD1 : Sm2ExtendedPrivKey := { depth := 4, parent_fingerprint := [112, 219, 234, 255], child_number := ChildNumber.Normal 1, private_key := { bytes := [165, 43, 215, 225, 145, 202, 216, 76, 134, 228, 94, 207, 2, 13, 159, 216, 216, 230, 25, 125, 234, 245, 98, 130, 115, 247, 112, 72, 163, 208, 3, 236] }, chain_code := [51, 50, 9, 28, 20, 72, 134, 176, 158, 74, 98, 254, 197, 216, 7, 90, 22, 192, 91, 223, 178, 237, 92, 83, 170, 147, 68, 241, 100, 39, 28, 43] }

/-- Intermediate extended private key of the test derivation tree. -/
def c2Leaf1 : Sm2ExtendedPrivKey := { depth := 5, parent_fingerprint := [116, 165, 198, 247], child_number := ChildNumber.Normal 0, private_key := { bytes := [145, 9, 28, 13, 10, 168, 58, 102, 71, 101, 120, 102, 31, 77, 161, 104, 174, 100, 145, 182, 6, 231, 96, 147, 58, 62, 86, 7, 77, 236, 148, 67] }, chain_code := [211, 90, 167, 78, 7, 213, 172, 49, 208, 120, 222, 149, 212, 184, 195, 8, 175, 60, 13, 106, 26, 122, 38, 170, 165, 88, 243, 70, 133, 175, 160, 51] }

/-- Intermediate extended private key of the test derivation tree. -/
def c2Leaf2 : Sm2ExtendedPrivKey := { depth := 5, parent_fingerprint := [116, 165, 198, 247], child_number := ChildNumber.Normal 1, private_key := { bytes := [184, 208, 20, 114, 251, 126, 89, 243, 185, 254, 161, 230, 152, 13, 208, 213, 154, 130, 52, 140, 143, 126, 27, 41, 196, 100, 3, 31, 44, 0, 240, 146] }, chain_code := [131, 122, 231, 9, 167, 97, 126, 166, 213, 66, 71, 151, 235, 148, 99, 219, 235, 189, 65, 46, 226, 22, 29, 151, 196, 5, 114, 180, 225, 169, 166, 154] }

/-- Intermediate extended private key of the test derivation tree. -/
def c2Leaf3 : Sm2ExtendedPrivKey := { depth := 5, parent_fingerprint := [119, 219, 27, 90], child_number := ChildNumber.Normal 0, private_key := { bytes := [234, 6, 117, 211, 203, 49, 71, 127, 164, 46, 60, 137, 159, 244, 237, 140, 90, 244, 150, 124, 85, 9, 125, 200, 3, 61, 206, 251, 93, 56, 6, 200] }, chain_code := [115, 117, 233, 14, 128, 133, 58, 239, 169, 74, 31, 222, 106, 156, 176, 82, 195, 154, 26, 228, 79, 41, 94, 110, 76, 8, 148, 6, 224, 146, 24, 160] }

/-- Intermediate extended private key of the test derivation tree. -/
def c2Leaf4 : Sm2ExtendedPrivKey := { depth := 5, parent_fingerprint := [119, 219, 27, 90], child_number := ChildNumber.Normal 1, private_key := { bytes := [93, 59, 140, 51, 240, 96, 126, 214, 98, 9, 149, 74, 71, 121, 207, 216, 76, 254, 96, 255, 198, 61, 42, 201, 67, 32, 124, 49, 181, 179, 127, 46] }, chain_code := [48, 16, 25, 173, 68, 142, 60, 33, 126, 95, 70, 244, 214, 85, 63, 7, 206, 111, 66, 135, 41, 108, 224, 234, 118, 178, 64, 123, 41, 120, 142, 150] }

/-- A parent extended private key with scalar n - 1 (the SM2 group order
minus one, a valid signing scalar) and all-zero chain code. -/
def c1Parent : Sm2ExtendedPrivKey :=
  { depth := 0, parent_fingerprint := [0, 0, 0, 0], child_number := .Normal 0,
    private_key := ⟨beBytes 32 (sm2N - 1)⟩, chain_code := List.replicate 32 0 }

/-- The private child of `c1Parent` at Normal(0): its scalar is
(n - 1 + IL) reduced modulo the coordinate-field prime p. -/
def c1Child : Sm2ExtendedPrivKey := { depth := 1, parent_fingerprint := [221, 54, 196, 204], child_number := ChildNumber.Normal 0, private_key := { bytes := [151, 57, 216, 127, 52, 239, 92, 7, 72, 173, 14, 103, 100, 69, 191, 254, 65, 218, 154, 231, 244, 200, 137, 244, 213, 192, 185, 27, 9, 123, 162, 1] }, chain_code := [209, 84, 28, 180, 84, 103, 45, 130, 245, 114, 116, 62, 216, 75, 109, 61, 121, 73, 254, 228, 104, 40, 158, 152, 98, 87, 240, 46, 99, 116, 139, 215] }

/-- The public extended key of `c1Parent`. -/
def c1ParentPub : Sm2ExtendedPubKey := { depth := 0, parent_fingerprint := [0, 0, 0, 0], child_number := ChildNumber.Normal 0, public_key := { bytes := [50, 196, 174, 44, 31, 25, 129, 25, 95, 153, 4, 70, 106, 57, 201, 148, 143, 227, 11, 191, 242, 102, 11, 225, 113, 90, 69, 137, 51, 76, 116, 199, 67, 200, 201, 92, 11, 9, 136, 99, 166, 66, 49, 28, 148, 150, 222, 172, 47, 86, 120, 130, 57, 213, 184, 192, 253, 32, 205, 26, 222, 198, 15, 95] }, chain_code := [0, 0, 0, 0, 0, 0, 0, 0, 0, 0, 0, 0, 0, 0, 0, 0, 0, 0, 0, 0, 0, 0, 0, 0, 0, 0, 0, 0, 0, 0, 0, 0] }

/-- The public extended key of the private child. -/
def c1ChildPub : Sm2ExtendedPubKey := { depth := 1, parent_fingerprint := [221, 54, 196, 204], child_number := ChildNumber.Normal 0, public_key := { bytes := [241, 128, 212, 250, 22, 162, 91, 130, 92, 69, 232, 211, 153, 94, 46, 94, 5, 190, 53, 228, 115, 227, 255, 133, 239, 174, 244, 176, 145, 91, 128, 210, 23, 76, 191, 86, 99, 132, 145, 147, 80, 29, 56, 219, 26, 97, 189, 170, 139, 226, 132, 10, 142, 89, 17, 93, 23, 76, 161, 98, 163, 192, 101, 144] }, chain_code := [209, 84, 28, 180, 84, 103, 45, 130, 245, 114, 116, 62, 216, 75, 109, 61, 121, 73, 254, 228, 104, 40, 158, 152, 98, 87, 240, 46, 99, 116, 139, 215] }

/-- The child derived on the public side from `c1ParentPub`. -/
def c1PubChild : Sm2ExtendedPubKey := { depth := 1, parent_fingerprint := [221, 54, 196, 204], child_number := ChildNumber.Normal 0, public_key := { bytes := [45, 4, 153, 20, 94, 118, 103, 132, 5, 177, 42, 187, 5, 143, 245, 231, 5, 24, 131, 194, 84, 248, 126, 148, 18, 86, 137, 161, 155, 155, 229, 185, 227, 181, 180, 54, 84, 11, 200, 181, 212, 8, 97, 176, 124, 219, 87, 21, 112, 217, 189, 204, 194, 82, 64, 175, 63, 254, 89, 119, 109, 191, 26, 102] }, chain_code := [209, 84, 28, 180, 84, 103, 45, 130, 245, 114, 116, 62, 216, 75, 109, 61, 121, 73, 254, 228, 104, 40, 158, 152, 98, 87, 240, 46, 99, 116, 139, 215] }

/-- Every entry of the list is a byte value. -/
abbrev ByteList (l : List Nat) : Prop := ∀ b ∈ l, b < 256

/-- Well-formedness of an SM2 extended public key as produced by the
constructors: field sizes match the wire layout. -/
abbrev Sm2ExtendedPubKey.WF (k : Sm2ExtendedPubKey) : Prop :=
  k.depth < 256 ∧ k.parent_fingerprint.length = 4 ∧ ByteList k.parent_fingerprint ∧
  k.child_number.WF ∧ k.chain_code.length = 32 ∧ ByteList k.chain_code ∧
  k.public_key.bytes.length = 64 ∧ ByteList k.public_key.bytes

/-- Well-formedness of an SM2 extended private key. -/
abbrev Sm2ExtendedPrivKey.WF (k : Sm2ExtendedPrivKey) : Prop :=
  k.depth < 256 ∧ k.parent_fingerprint.length = 4 ∧ ByteList k.parent_fingerprint ∧
  k.child_number.WF ∧ k.chain_code.length = 32 ∧ ByteList k.chain_code ∧
  k.private_key.bytes.length = 32 ∧ ByteList k.private_key.bytes

def c5Ver : List Nat := [1, 2, 3, 4]

def c5Pub : Sm2ExtendedPubKey :=
  ⟨0, [0, 0, 0, 0], .Normal 0, ⟨List.replicate 64 7⟩, List.replicate 32 9⟩

def c5Priv : Sm2ExtendedPrivKey :=
  ⟨1, [1, 1, 1, 1], .Hardened 5, ⟨List.replicate 32 3⟩, List.replicate 32 8⟩



/-! ## Basic length and byte-range lemmas -/

theorem beBytes_length (k n : Nat) : (beBytes k n).length = k := by
  induction k generalizing n with
  | zero => rfl
  | succ k ih => simp [beBytes, ih]

theorem beBytes_lt (k n : Nat) : ∀ b ∈ beBytes k n, b < 256 := by
  induction k generalizing n with
  | zero => simp [beBytes]
  | succ k ih =>
    intro b hb
    simp only [beBytes, List.mem_append, List.mem_singleton] at hb
    rcases hb with h | h
    · exact ih (n / 256) b h
    · subst h; exact Nat.mod_lt _ (by decide)

theorem sha512_length (m : List Nat) : (sha512 m).length = 64 := by
  simp [sha512, beBytes_length]

theorem hmacSha512_length (k d : List Nat) : (hmacSha512 k d).length = 64 := by
  simp [hmacSha512, sha512_length]

theorem sha256_length (m : List Nat) : (sha256 m).length = 32 := by
  simp [sha256, beBytes_length]

theorem sha256_lt (m : List Nat) : ∀ b ∈ sha256 m, b < 256 := by
  intro b hb
  simp only [sha256, List.mem_append] at hb
  rcases hb with ((((((h | h) | h) | h) | h) | h) | h) | h <;> exact beBytes_lt _ _ b h


/-! ## Round-trip lemmas for the codecs (C5) -/

theorem natOfBe_append_one (l : List Nat) (b : Nat) :
    natOfBe (l ++ [b]) = natOfBe l * 256 + b := by
  simp [natOfBe, List.foldl_append]

theorem natOfBe_beBytes (k n : Nat) (h : n < 256 ^ k) :
    natOfBe (beBytes k n) = n := by
  induction k generalizing n with
  | zero =>
    simp only [beBytes, natOfBe, List.foldl_nil]
    simp only [pow_zero] at h
    omega
  | succ k ih =>
    have h2 : n / 256 < 256 ^ k := by
      rw [Nat.div_lt_iff_lt_mul (by norm_num)]
      calc n < 256 ^ (k + 1) := h
        _ = 256 ^ k * 256 := by ring
    rw [beBytes, natOfBe_append_one, ih _ h2]
    omega

theorem toU32_lt (cn : ChildNumber) (h : cn.WF) : cn.toU32 < 4294967296 := by
  cases cn with
  | Normal i => simp [ChildNumber.toU32]; simp [ChildNumber.WF] at h; omega
  | Hardened i => simp [ChildNumber.toU32]; simp [ChildNumber.WF] at h; omega

theorem ofU32_toU32 (cn : ChildNumber) (h : cn.WF) :
    ChildNumber.ofU32 cn.toU32 = cn := by
  cases cn with
  | Normal i =>
    simp [ChildNumber.WF] at h
    simp [ChildNumber.toU32, ChildNumber.ofU32, h]
  | Hardened i =>
    simp [ChildNumber.WF] at h
    simp [ChildNumber.toU32, ChildNumber.ofU32]

theorem hex_pair_ok :
    ∀ b, b < 256 →
      hexVal (hexDigits.getD (b / 16 % 16) 'x') = some (b / 16) ∧
      hexVal (hexDigits.getD (b % 16) 'x') = some (b % 16) := by decide

theorem hexDecode_hexEncode (l : List Nat) (h : ByteList l) :
    hexDecode (hexEncode l) = .ok l := by
  induction l with
  | nil => rfl
  | cons b t ih =>
    have hb : b < 256 := h b (by simp)
    have ht : ByteList t := fun x hx => h x (by simp [hx])
    have hp := hex_pair_ok b hb
    show hexDecode (hexDigits.getD (b / 16 % 16) 'x' :: hexDigits.getD (b % 16) 'x' ::
      hexEncode t) = .ok (b :: t)
    rw [hexDecode, hp.1, hp.2, ih ht]
    have : b / 16 * 16 + b % 16 = b := by omega
    simp [this]

theorem b58Char_val : ∀ d, d < 58 → b58Val (b58Char d) = some d := by decide

theorem b58Char_ne_one : ∀ d, d < 58 → d ≠ 0 → b58Char d ≠ b58Char 0 := by decide

theorem natToBaseLE_zero (b f : Nat) : natToBaseLE b f 0 = [] := by
  cases f <;> simp [natToBaseLE]

theorem natToBaseLE_lt (b : Nat) (hb : 0 < b) :
    ∀ f n d, d ∈ natToBaseLE b f n → d < b := by
  intro f
  induction f with
  | zero => intro n d hd; simp [natToBaseLE] at hd
  | succ f ih =>
    intro n d hd
    rw [natToBaseLE] at hd
    split at hd
    · simp at hd
    · rcases List.mem_cons.mp hd with h | h
      · subst h; exact Nat.mod_lt _ hb
      · exact ih _ _ h

theorem ofBaseLE_cons (b d : Nat) (t : List Nat) :
    ofBaseLE b (d :: t) = d + b * ofBaseLE b t := by
  simp [ofBaseLE]

theorem ofBaseLE_natToBaseLE (b : Nat) (hb : 2 ≤ b) :
    ∀ f n, n < b ^ f → ofBaseLE b (natToBaseLE b f n) = n := by
  intro f
  induction f with
  | zero =>
    intro n h
    simp only [pow_zero] at h
    interval_cases n
    rfl
  | succ f ih =>
    intro n h
    rw [natToBaseLE]
    split
    · simp only [ofBaseLE, List.foldr_nil]; omega
    · have hdiv : n / b < b ^ f := by
        rw [Nat.div_lt_iff_lt_mul (by omega)]
        calc n < b ^ (f + 1) := h
          _ = b ^ f * b := by ring
      rw [ofBaseLE_cons, ih (n / b) hdiv]
      exact Nat.mod_add_div n b

theorem ofBaseLE_ne_zero (b : Nat) (hb : 2 ≤ b) :
    ∀ l : List Nat, l ≠ [] → l.getLast? ≠ some 0 → ofBaseLE b l ≠ 0 := by
  intro l
  induction l with
  | nil => intro h; exact absurd rfl h
  | cons d t ih =>
    intro _ hlast
    cases t with
    | nil =>
      simp only [List.getLast?_singleton, ne_eq, Option.some.injEq] at hlast
      rw [ofBaseLE_cons]
      simp [ofBaseLE]
      omega
    | cons e u =>
      have hlast2 : (e :: u).getLast? ≠ some 0 := by
        rwa [List.getLast?_cons_cons] at hlast
      have hne := ih (by simp) hlast2
      rw [ofBaseLE_cons]
      have hpos : 0 < ofBaseLE b (e :: u) := Nat.pos_of_ne_zero hne
      have : 0 < b * ofBaseLE b (e :: u) := Nat.mul_pos (by omega) hpos
      omega

theorem natToBaseLE_ofBaseLE (b : Nat) (hb : 2 ≤ b) :
    ∀ (l : List Nat) (f : Nat), (∀ d ∈ l, d < b) → l.getLast? ≠ some 0 →
      ofBaseLE b l < b ^ f → natToBaseLE b f (ofBaseLE b l) = l := by
  intro l
  induction l with
  | nil =>
    intro f _ _ _
    show natToBaseLE b f 0 = []
    exact natToBaseLE_zero b f
  | cons d t ih =>
    intro f hd hlast hf
    have hdb : d < b := hd d (by simp)
    have hne : ofBaseLE b (d :: t) ≠ 0 := by
      cases t with
      | nil =>
        simp only [List.getLast?_singleton, ne_eq, Option.some.injEq] at hlast
        rw [ofBaseLE_cons]
        simp [ofBaseLE]
        omega
      | cons e u =>
        have hlast2 : (e :: u).getLast? ≠ some 0 := by
          rwa [List.getLast?_cons_cons] at hlast
        have hpos : 0 < ofBaseLE b (e :: u) :=
          Nat.pos_of_ne_zero (ofBaseLE_ne_zero b hb (e :: u) (by simp) hlast2)
        rw [ofBaseLE_cons]
        have : 0 < b * ofBaseLE b (e :: u) := Nat.mul_pos (by omega) hpos
        omega
    have hmod : ofBaseLE b (d :: t) % b = d := by
      rw [ofBaseLE_cons, Nat.add_mul_mod_self_left, Nat.mod_eq_of_lt hdb]
    have hdiv : ofBaseLE b (d :: t) / b = ofBaseLE b t := by
      rw [ofBaseLE_cons, Nat.add_mul_div_left _ _ (by omega : 0 < b),
        Nat.div_eq_of_lt hdb]
      omega
    cases f with
    | zero =>
      simp only [pow_zero] at hf
      omega
    | succ f =>
      rw [natToBaseLE, if_neg hne, hmod, hdiv]
      cases t with
      | nil =>
        show d :: natToBaseLE b f 0 = [d]
        rw [natToBaseLE_zero]
      | cons e u =>
        have hlast2 : (e :: u).getLast? ≠ some 0 := by
          rwa [List.getLast?_cons_cons] at hlast
        have hfu : ofBaseLE b (e :: u) < b ^ f := by
          rw [ofBaseLE_cons] at hf
          have hb0 : (0 : Nat) < b := by omega
          by_contra hc
          push_neg at hc
          have : b ^ (f + 1) ≤ b * ofBaseLE b (e :: u) := by
            calc b ^ (f + 1) = b * b ^ f := by ring
              _ ≤ b * ofBaseLE b (e :: u) := Nat.mul_le_mul_left b hc
          omega
        rw [ih f (fun x hx => hd x (by simp [hx])) hlast2 hfu]

theorem foldl_be_eq_ofBaseLE (b : Nat) (l : List Nat) (a : Nat) :
    l.foldl (fun acc d => acc * b + d) a = ofBaseLE b l.reverse + a * b ^ l.length := by
  induction l generalizing a with
  | nil => simp [ofBaseLE]
  | cons d t ih =>
    simp only [List.foldl_cons, List.reverse_cons, List.length_cons]
    rw [ih]
    have : ofBaseLE b (t.reverse ++ [d]) = ofBaseLE b t.reverse + d * b ^ t.reverse.length := by
      clear ih
      induction t.reverse with
      | nil => simp [ofBaseLE]
      | cons x r ihr =>
        simp only [List.cons_append, ofBaseLE_cons, ihr, List.length_cons]
        ring
    rw [this]
    simp [List.length_reverse]
    ring

theorem natOfBe_eq_ofBaseLE (l : List Nat) :
    natOfBe l = ofBaseLE 256 l.reverse := by
  have := foldl_be_eq_ofBaseLE 256 l 0
  simpa [natOfBe] using this

theorem b58Fold_map (ds : List Nat) (hd : ∀ d ∈ ds, d < 58) :
    ∀ a, b58Fold (ds.map b58Char) (some a) =
      some (ds.foldl (fun acc d => acc * 58 + d) a) := by
  induction ds with
  | nil => intro a; rfl
  | cons d t ih =>
    intro a
    have hdd : d < 58 := hd d (by simp)
    simp only [List.map_cons, b58Fold, b58Char_val d hdd, List.foldl_cons]
    exact ih (fun x hx => hd x (by simp [hx])) _

theorem takeWhile_append_all {α : Type} (p : α → Bool) (l1 l2 : List α)
    (h : ∀ x ∈ l1, p x = true) :
    (l1 ++ l2).takeWhile p = l1 ++ l2.takeWhile p := by
  induction l1 with
  | nil => simp
  | cons x t ih =>
    have ht := ih (fun y hy => h y (by simp [hy]))
    simp [List.takeWhile_cons, h x (by simp), ht]

theorem dropWhile_append_all {α : Type} (p : α → Bool) (l1 l2 : List α)
    (h : ∀ x ∈ l1, p x = true) :
    (l1 ++ l2).dropWhile p = l2.dropWhile p := by
  induction l1 with
  | nil => simp
  | cons x t ih =>
    have ht := ih (fun y hy => h y (by simp [hy]))
    simp [List.dropWhile_cons, h x (by simp), ht]

theorem natOfBe_zeros_append (z l : List Nat) (h : ∀ x ∈ z, x = 0) :
    natOfBe (z ++ l) = natOfBe l := by
  induction z with
  | nil => simp
  | cons x t ih =>
    have hx : x = 0 := h x (by simp)
    subst hx
    simp only [List.cons_append, natOfBe, List.foldl_cons]
    exact ih (fun y hy => h y (by simp [hy]))

theorem natOfBe_head_ne_zero (r : Nat) (t : List Nat) (h : r ≠ 0) :
    natOfBe (r :: t) ≠ 0 := by
  have gen : ∀ (l : List Nat) (a : Nat), a ≠ 0 →
      List.foldl (fun acc b => acc * 256 + b) a l ≠ 0 := by
    intro l
    induction l with
    | nil => intro a ha; simpa using ha
    | cons x u ih =>
      intro a ha
      simp only [List.foldl_cons]
      apply ih
      have : 256 ≤ a * 256 := by
        have : 1 ≤ a := Nat.pos_of_ne_zero ha
        omega
      omega
  simp only [natOfBe, List.foldl_cons]
  exact gen t (0 * 256 + r) (by omega)

theorem map_zero_eq_self (l : List Nat) (h : ∀ x ∈ l, x = 0) :
    l.map (fun _ => 0) = l := by
  induction l with
  | nil => rfl
  | cons x t ih =>
    have hx := h x (by simp)
    subst hx
    simp [ih (fun y hy => h y (by simp [hy]))]

theorem dropWhile_head_not {α : Type} (p : α → Bool) :
    ∀ (l : List α) (x : α) (t : List α), l.dropWhile p = x :: t → p x = false := by
  intro l
  induction l with
  | nil => intro x t h; simp [List.dropWhile] at h
  | cons a u ih =>
    intro x t h
    rw [List.dropWhile_cons] at h
    split at h
    · exact ih x t h
    · next hpa =>
      injection h with h1 h2
      subst h1
      simpa using hpa

theorem natToBaseLE_ne_nil (b f n : Nat) (hn : n ≠ 0) (hf : 0 < f) :
    natToBaseLE b f n ≠ [] := by
  cases f with
  | zero => omega
  | succ f => simp [natToBaseLE, hn]

theorem natToBaseLE_getLast_ne_zero (b : Nat) (hb : 2 ≤ b) :
    ∀ f n, n ≠ 0 → n < b ^ f → (natToBaseLE b f n).getLast? ≠ some 0 := by
  intro f
  induction f with
  | zero =>
    intro n hn h
    simp only [pow_zero] at h
    omega
  | succ f ih =>
    intro n hn h
    rw [natToBaseLE, if_neg hn]
    by_cases hq : n / b = 0
    · rw [hq, natToBaseLE_zero]
      have hnb : n < b := by
        by_contra hc
        push_neg at hc
        have h1 : 1 ≤ n / b := (Nat.one_le_div_iff (by omega)).mpr hc
        omega
      simp only [List.getLast?_singleton, ne_eq, Option.some.injEq]
      rw [Nat.mod_eq_of_lt hnb]
      exact hn
    · have hdiv : n / b < b ^ f := by
        rw [Nat.div_lt_iff_lt_mul (by omega), ← pow_succ]
        exact h
      have hfpos : 0 < f := by
        cases f with
        | zero =>
          simp only [pow_zero, Nat.lt_one_iff] at hdiv
          exact absurd hdiv hq
        | succ g => exact Nat.succ_pos g
      have hne := natToBaseLE_ne_nil b f (n / b) hq hfpos
      have hih := ih (n / b) hq hdiv
      cases hd : natToBaseLE b f (n / b) with
      | nil => exact absurd hd hne
      | cons e u =>
        rw [hd] at hih
        rw [List.getLast?_cons_cons]
        exact hih

theorem b58Decode_eq (s : List Char) (n : Nat)
    (h : b58Fold (s.dropWhile (fun c => c = b58Char 0)) (some 0) = some n) :
    b58Decode s =
      .ok ((s.takeWhile (fun c => c = b58Char 0)).map (fun _ => 0) ++ minimalBe n) := by
  unfold b58Decode
  simp only [h]

theorem b58Decode_b58Encode (data : List Nat) (h : ByteList data) :
    b58Decode (b58Encode data) = .ok data := by
  have hsplit : data.takeWhile (fun b => b = 0) ++ data.dropWhile (fun b => b = 0) = data :=
    List.takeWhile_append_dropWhile _ _
  have hzeros : ∀ x ∈ data.takeWhile (fun b => b = 0), x = 0 := by
    intro x hx
    have := List.mem_takeWhile_imp hx
    simpa using this
  have hallone : ∀ c ∈ (data.takeWhile (fun b => b = 0)).map (fun _ => b58Char 0),
      (fun c => decide (c = b58Char 0)) c = true := by
    intro c hc
    simp only [List.mem_map] at hc
    rcases hc with ⟨x, _, hx⟩
    simp [← hx]
  have hn : natOfBe data = natOfBe (data.dropWhile (fun b => b = 0)) := by
    conv_lhs => rw [← hsplit]
    exact natOfBe_zeros_append _ _ hzeros
  have hmapzero : ((data.takeWhile (fun b => b = 0)).map (fun _ => b58Char 0)).map
      (fun _ => (0 : Nat)) = data.takeWhile (fun b => b = 0) := by
    rw [List.map_map]
    exact map_zero_eq_self _ hzeros
  cases hrest : data.dropWhile (fun b => b = 0) with
  | nil =>
    have hn0 : natOfBe data = 0 := by rw [hn, hrest]; rfl
    have htake : data.takeWhile (fun b => b = 0) = data := by
      have h5 := hsplit
      rw [hrest, List.append_nil] at h5
      exact h5
    have henc : b58Encode data =
        (data.takeWhile (fun b => b = 0)).map (fun _ => b58Char 0) := by
      simp only [b58Encode, hn0, natToBaseLE_zero, List.reverse_nil, List.map_nil,
        List.append_nil]
    rw [henc]
    have h1 : ((data.takeWhile (fun b => b = 0)).map (fun _ => b58Char 0)).takeWhile
        (fun c => c = b58Char 0) =
        (data.takeWhile (fun b => b = 0)).map (fun _ => b58Char 0) := by
      have := takeWhile_append_all (fun c => decide (c = b58Char 0))
        ((data.takeWhile (fun b => b = 0)).map (fun _ => b58Char 0)) [] hallone
      simpa using this
    have h2 : ((data.takeWhile (fun b => b = 0)).map (fun _ => b58Char 0)).dropWhile
        (fun c => c = b58Char 0) = [] := by
      have := dropWhile_append_all (fun c => decide (c = b58Char 0))
        ((data.takeWhile (fun b => b = 0)).map (fun _ => b58Char 0)) [] hallone
      simpa using this
    rw [b58Decode_eq _ 0 (by rw [h2]; rfl)]
    rw [h1, hmapzero]
    simp only [minimalBe, natToBaseLE_zero, List.reverse_nil, List.append_nil, htake]
  | cons r t =>
    have hr0 : r ≠ 0 := by
      have := dropWhile_head_not (fun b => decide (b = 0)) data r t hrest
      simpa using this
    have hne0 : natOfBe data ≠ 0 := by
      rw [hn, hrest]
      exact natOfBe_head_ne_zero r t hr0
    have hpow : natOfBe data < 58 ^ natOfBe data := Nat.lt_pow_self (by omega) _
    have hlt : ∀ d ∈ natToBaseLE 58 (natOfBe data) (natOfBe data), d < 58 :=
      fun d hd => natToBaseLE_lt 58 (by omega) _ _ d hd
    have hofb : ofBaseLE 58 (natToBaseLE 58 (natOfBe data) (natOfBe data)) = natOfBe data :=
      ofBaseLE_natToBaseLE 58 (by omega) _ _ hpow
    have hlast : (natToBaseLE 58 (natOfBe data) (natOfBe data)).getLast? ≠ some 0 :=
      natToBaseLE_getLast_ne_zero 58 (by omega) _ _ hne0 hpow
    cases hdr : (natToBaseLE 58 (natOfBe data) (natOfBe data)).reverse with
    | nil =>
      have hnil : natToBaseLE 58 (natOfBe data) (natOfBe data) = [] := by
        have := congrArg List.reverse hdr
        simpa using this
      exact absurd hnil (natToBaseLE_ne_nil _ _ _ hne0 (Nat.pos_of_ne_zero hne0))
    | cons d0 ds =>
      have hd0last : (natToBaseLE 58 (natOfBe data) (natOfBe data)).getLast? = some d0 := by
        rw [← List.head?_reverse, hdr]
        rfl
      have hd0ne : d0 ≠ 0 := by
        intro hc
        rw [hc] at hd0last
        exact hlast hd0last
      have hd0lt : d0 < 58 := by
        have hmem : d0 ∈ natToBaseLE 58 (natOfBe data) (natOfBe data) := by
          rw [← List.mem_reverse, hdr]
          simp
        exact hlt d0 hmem
      have hd0c : b58Char d0 ≠ b58Char 0 := b58Char_ne_one d0 hd0lt hd0ne
      have henc : b58Encode data =
          (data.takeWhile (fun b => b = 0)).map (fun _ => b58Char 0) ++
            (b58Char d0 :: ds.map b58Char) := by
        simp only [b58Encode, hdr, List.map_cons]
      rw [henc]
      have h1 : ((data.takeWhile (fun b => b = 0)).map (fun _ => b58Char 0) ++
          (b58Char d0 :: ds.map b58Char)).takeWhile (fun c => c = b58Char 0) =
          (data.takeWhile (fun b => b = 0)).map (fun _ => b58Char 0) := by
        rw [takeWhile_append_all _ _ _ hallone]
        simp [List.takeWhile_cons, hd0c]
      have h2 : ((data.takeWhile (fun b => b = 0)).map (fun _ => b58Char 0) ++
          (b58Char d0 :: ds.map b58Char)).dropWhile (fun c => c = b58Char 0) =
          b58Char d0 :: ds.map b58Char := by
        rw [dropWhile_append_all _ _ _ hallone]
        simp [List.dropWhile_cons, hd0c]
      have h3 : b58Fold (b58Char d0 :: ds.map b58Char) (some 0) = some (natOfBe data) := by
        have hmapeq : b58Char d0 :: ds.map b58Char = (d0 :: ds).map b58Char := by
          simp
        rw [hmapeq, ← hdr]
        have hmem : ∀ d ∈ (natToBaseLE 58 (natOfBe data) (natOfBe data)).reverse, d < 58 :=
          fun d hd => hlt d (List.mem_reverse.mp hd)
        rw [b58Fold_map _ hmem 0]
        rw [foldl_be_eq_ofBaseLE]
        simp [List.reverse_reverse, hofb]
      have h4 : minimalBe (natOfBe data) = r :: t := by
        have hmemrt : ∀ x ∈ (r :: t).reverse, x < 256 := by
          intro x hx
          have hx2 : x ∈ r :: t := List.mem_reverse.mp hx
          rw [← hrest] at hx2
          exact h x ((List.dropWhile_sublist _).subset hx2)
        have hlastrt : ((r :: t).reverse).getLast? ≠ some 0 := by
          rw [List.getLast?_reverse]
          simp [hr0]
        have hval : ofBaseLE 256 ((r :: t).reverse) = natOfBe data := by
          rw [← natOfBe_eq_ofBaseLE, ← hrest, ← hn]
        have hbound : ofBaseLE 256 ((r :: t).reverse) < 256 ^ natOfBe data := by
          rw [hval]
          exact Nat.lt_pow_self (by omega) _
        have hmain := natToBaseLE_ofBaseLE 256 (by omega) ((r :: t).reverse) (natOfBe data)
          hmemrt hlastrt hbound
        rw [hval] at hmain
        simp only [minimalBe, hmain, List.reverse_reverse]
      rw [b58Decode_eq _ (natOfBe data) (by rw [h2, h3])]
      rw [h1, hmapzero, h4, ← hrest, hsplit]

theorem sha256dChecksum_lt (l : List Nat) : ∀ b ∈ sha256dChecksum l, b < 256 := by
  intro b hb
  exact sha256_lt _ b (List.mem_of_mem_take hb)

theorem sha256dChecksum_length (l : List Nat) : (sha256dChecksum l).length = 4 := by
  simp [sha256dChecksum, sha256_length]

theorem b58FromCheck_b58CheckEncode (data : List Nat) (h : ByteList data) :
    b58FromCheck (b58CheckEncode data) = .ok data := by
  have hchk : ByteList (data ++ sha256dChecksum data) := by
    intro b hb
    rcases List.mem_append.mp hb with h1 | h1
    · exact h b h1
    · exact sha256dChecksum_lt data b h1
  have hdec : b58Decode (b58CheckEncode data) = .ok (data ++ sha256dChecksum data) := by
    unfold b58CheckEncode
    exact b58Decode_b58Encode _ hchk
  unfold b58FromCheck
  simp only [hdec, List.length_append, sha256dChecksum_length]
  rw [if_neg (by omega)]
  simp only [Nat.add_sub_cancel]
  rw [List.take_left, List.drop_left]
  rw [if_pos rfl]

theorem sliceAt (A B C : List Nat) (a b : Nat) (hA : A.length = a) (hB : B.length = b) :
    ((A ++ (B ++ C)).drop a).take b = B := by
  subst hA hB
  rw [List.drop_left, List.take_left]

theorem sliceAtEnd (A B : List Nat) (a b : Nat) (hA : A.length = a) (hB : B.length = b) :
    ((A ++ B).drop a).take b = B := by
  subst hA hB
  rw [List.drop_left, List.take_length]

theorem takeHead (A B : List Nat) (a : Nat) (hA : A.length = a) :
    (A ++ B).take a = A := by
  subst hA
  rw [List.take_left]

theorem getD_append_len (A : List Nat) (x : Nat) (R : List Nat) (a : Nat)
    (hA : A.length = a) : (A ++ (x :: R)).getD a 0 = x := by
  subst hA
  induction A with
  | nil => rfl
  | cons y u ih =>
    rw [List.cons_append, List.length_cons, List.getD_cons_succ]
    exact ih

theorem toU32_lt_pow (cn : ChildNumber) (h : cn.WF) : cn.toU32 < 256 ^ 4 := by
  have := toU32_lt cn h
  norm_num
  omega

theorem toHexPub_roundtrip (k : Sm2ExtendedPubKey) (h : Sm2ExtendedPubKey.WF k) :
    ∃ s, Bip32Sm2.toHexPub k = some s ∧ Bip32Sm2.fromHexPub s = .ok k := by
  obtain ⟨d, fp, cn, ⟨pkb⟩, cc⟩ := k
  obtain ⟨hd, hfp, hfpB, hcn, hcc, hccB, hpk, hpkB⟩ := h
  refine ⟨hexEncode ([d % 256] ++ fp ++ beBytes 4 cn.toU32 ++ cc ++ pkb), ?_, ?_⟩
  · unfold Bip32Sm2.toHexPub
    rw [if_pos ⟨hfp, hcc, hpk⟩]
  · have hPB : ByteList ([d % 256] ++ fp ++ beBytes 4 cn.toU32 ++ cc ++ pkb) := by
      intro b hb
      simp only [List.mem_append, List.mem_singleton] at hb
      rcases hb with ((((hb | hb) | hb) | hb) | hb)
      · subst hb; exact Nat.mod_lt _ (by omega)
      · exact hfpB b hb
      · exact beBytes_lt _ _ b hb
      · exact hccB b hb
      · exact hpkB b hb
    have hdec := hexDecode_hexEncode _ hPB
    have hlen : ([d % 256] ++ fp ++ beBytes 4 cn.toU32 ++ cc ++ pkb).length = 105 := by
      simp [hfp, hcc, hpk, beBytes_length]
    have e1 : ([d % 256] ++ fp ++ beBytes 4 cn.toU32 ++ cc ++ pkb) =
        [d % 256] ++ (fp ++ (beBytes 4 cn.toU32 ++ (cc ++ pkb))) := by
      simp [List.append_assoc]
    have e5 : ([d % 256] ++ fp ++ beBytes 4 cn.toU32 ++ cc ++ pkb) =
        ([d % 256] ++ fp) ++ (beBytes 4 cn.toU32 ++ (cc ++ pkb)) := by
      simp [List.append_assoc]
    have e9 : ([d % 256] ++ fp ++ beBytes 4 cn.toU32 ++ cc ++ pkb) =
        (([d % 256] ++ fp) ++ beBytes 4 cn.toU32) ++ (cc ++ pkb) := by
      simp [List.append_assoc]
    have hs1 : (([d % 256] ++ fp ++ beBytes 4 cn.toU32 ++ cc ++ pkb).drop 1).take 4 = fp := by
      rw [e1]; exact sliceAt _ _ _ _ _ rfl hfp
    have hs5 : (([d % 256] ++ fp ++ beBytes 4 cn.toU32 ++ cc ++ pkb).drop 5).take 4 =
        beBytes 4 cn.toU32 := by
      rw [e5]; exact sliceAt _ _ _ _ _ (by simp [hfp]) (beBytes_length 4 _)
    have hs9 : (([d % 256] ++ fp ++ beBytes 4 cn.toU32 ++ cc ++ pkb).drop 9).take 32 = cc := by
      rw [e9]; exact sliceAt _ _ _ _ _ (by simp [hfp, beBytes_length]) hcc
    have hs41 : (([d % 256] ++ fp ++ beBytes 4 cn.toU32 ++ cc ++ pkb).drop 41).take 64 =
        pkb := sliceAtEnd _ _ _ _ (by simp [hfp, hcc, beBytes_length]) hpk
    have hs0 : ([d % 256] ++ fp ++ beBytes 4 cn.toU32 ++ cc ++ pkb).headD 0 = d % 256 := rfl
    have hcn2 : ChildNumber.ofU32 (natOfBe (beBytes 4 cn.toU32)) = cn := by
      rw [natOfBe_beBytes 4 _ (toU32_lt_pow cn hcn)]
      exact ofU32_toU32 cn hcn
    have hfs : Sm2PublicKey.from_slice pkb = some (.ok ⟨pkb⟩) := by
      simp [Sm2PublicKey.from_slice, hpk]
    unfold Bip32Sm2.fromHexPub
    simp only [hdec]
    rw [if_pos hlen, hs41]
    simp only [hfs]
    rw [hs1, hs5, hcn2, hs9, hs0, Nat.mod_eq_of_lt hd]

theorem toSs58Pub_roundtrip (k : Sm2ExtendedPubKey) (v : List Nat)
    (h : Sm2ExtendedPubKey.WF k) (hv : v.length = 4) (hvB : ByteList v) :
    ∃ s, Bip32Sm2.toSs58Pub k v = some s ∧ Bip32Sm2.fromSs58Pub s = .ok (k, v) := by
  obtain ⟨d, fp, cn, ⟨pkb⟩, cc⟩ := k
  obtain ⟨hd, hfp, hfpB, hcn, hcc, hccB, hpk, hpkB⟩ := h
  refine ⟨b58CheckEncode (v ++ [d % 256] ++ fp ++ beBytes 4 cn.toU32 ++ cc ++ pkb), ?_, ?_⟩
  · unfold Bip32Sm2.toSs58Pub
    rw [if_pos ⟨hv, hfp, hcc, hpk⟩]
  · have hPB : ByteList (v ++ [d % 256] ++ fp ++ beBytes 4 cn.toU32 ++ cc ++ pkb) := by
      intro b hb
      simp only [List.mem_append, List.mem_singleton] at hb
      rcases hb with (((((hb | hb) | hb) | hb) | hb) | hb)
      · exact hvB b hb
      · subst hb; exact Nat.mod_lt _ (by omega)
      · exact hfpB b hb
      · exact beBytes_lt _ _ b hb
      · exact hccB b hb
      · exact hpkB b hb
    have hdec := b58FromCheck_b58CheckEncode _ hPB
    have hlen : (v ++ [d % 256] ++ fp ++ beBytes 4 cn.toU32 ++ cc ++ pkb).length = 109 := by
      simp [hv, hfp, hcc, hpk, beBytes_length]
    have e4 : (v ++ [d % 256] ++ fp ++ beBytes 4 cn.toU32 ++ cc ++ pkb) =
        v ++ ((d % 256) :: (fp ++ (beBytes 4 cn.toU32 ++ (cc ++ pkb)))) := by
      simp [List.append_assoc]
    have e5 : (v ++ [d % 256] ++ fp ++ beBytes 4 cn.toU32 ++ cc ++ pkb) =
        (v ++ [d % 256]) ++ (fp ++ (beBytes 4 cn.toU32 ++ (cc ++ pkb))) := by
      simp [List.append_assoc]
    have e9 : (v ++ [d % 256] ++ fp ++ beBytes 4 cn.toU32 ++ cc ++ pkb) =
        ((v ++ [d % 256]) ++ fp) ++ (beBytes 4 cn.toU32 ++ (cc ++ pkb)) := by
      simp [List.append_assoc]
    have e13 : (v ++ [d % 256] ++ fp ++ beBytes 4 cn.toU32 ++ cc ++ pkb) =
        (((v ++ [d % 256]) ++ fp) ++ beBytes 4 cn.toU32) ++ (cc ++ pkb) := by
      simp [List.append_assoc]
    have hs4 : (v ++ [d % 256] ++ fp ++ beBytes 4 cn.toU32 ++ cc ++ pkb).take 4 = v := by
      rw [e4]; exact takeHead _ _ _ hv
    have hg4 : (v ++ [d % 256] ++ fp ++ beBytes 4 cn.toU32 ++ cc ++ pkb).getD 4 0 =
        d % 256 := by
      rw [e4]; exact getD_append_len _ _ _ _ hv
    have hs5 : ((v ++ [d % 256] ++ fp ++ beBytes 4 cn.toU32 ++ cc ++ pkb).drop 5).take 4 =
        fp := by
      rw [e5]; exact sliceAt _ _ _ _ _ (by simp [hv]) hfp
    have hs9 : ((v ++ [d % 256] ++ fp ++ beBytes 4 cn.toU32 ++ cc ++ pkb).drop 9).take 4 =
        beBytes 4 cn.toU32 := by
      rw [e9]; exact sliceAt _ _ _ _ _ (by simp [hv, hfp]) (beBytes_length 4 _)
    have hs13 : ((v ++ [d % 256] ++ fp ++ beBytes 4 cn.toU32 ++ cc ++ pkb).drop 13).take 32 =
        cc := by
      rw [e13]; exact sliceAt _ _ _ _ _ (by simp [hv, hfp, beBytes_length]) hcc
    have hs45 : ((v ++ [d % 256] ++ fp ++ beBytes 4 cn.toU32 ++ cc ++ pkb).drop 45).take 64 =
        pkb := sliceAtEnd _ _ _ _ (by simp [hv, hfp, hcc, beBytes_length]) hpk
    have hcn2 : ChildNumber.ofU32 (natOfBe (beBytes 4 cn.toU32)) = cn := by
      rw [natOfBe_beBytes 4 _ (toU32_lt_pow cn hcn)]
      exact ofU32_toU32 cn hcn
    have hfs : Sm2PublicKey.from_slice pkb = some (.ok ⟨pkb⟩) := by
      simp [Sm2PublicKey.from_slice, hpk]
    unfold Bip32Sm2.fromSs58Pub
    simp only [hdec]
    rw [if_pos hlen, hs45]
    simp only [hfs]
    rw [hs5, hs9, hcn2, hs13, hs4, hg4, Nat.mod_eq_of_lt hd]

theorem toSs58Priv_roundtrip (k : Sm2ExtendedPrivKey) (v : List Nat)
    (h : Sm2ExtendedPrivKey.WF k) (hv : v.length = 4) (hvB : ByteList v) :
    ∃ s, Bip32Sm2.toSs58Priv k v = some s ∧ Bip32Sm2.fromSs58Priv s = .ok (k, v) := by
  obtain ⟨d, fp, cn, ⟨skb⟩, cc⟩ := k
  obtain ⟨hd, hfp, hfpB, hcn, hcc, hccB, hsk, hskB⟩ := h
  refine ⟨b58CheckEncode (v ++ [d % 256] ++ fp ++ beBytes 4 cn.toU32 ++ cc ++ [0] ++ skb),
    ?_, ?_⟩
  · unfold Bip32Sm2.toSs58Priv
    rw [if_pos ⟨hv, hfp, hcc, hsk⟩]
  · have hPB : ByteList (v ++ [d % 256] ++ fp ++ beBytes 4 cn.toU32 ++ cc ++ [0] ++ skb) := by
      intro b hb
      simp only [List.mem_append, List.mem_singleton] at hb
      rcases hb with ((((((hb | hb) | hb) | hb) | hb) | hb) | hb)
      · exact hvB b hb
      · subst hb; exact Nat.mod_lt _ (by omega)
      · exact hfpB b hb
      · exact beBytes_lt _ _ b hb
      · exact hccB b hb
      · subst hb; omega
      · exact hskB b hb
    have hdec := b58FromCheck_b58CheckEncode _ hPB
    have hlen :
        (v ++ [d % 256] ++ fp ++ beBytes 4 cn.toU32 ++ cc ++ [0] ++ skb).length = 78 := by
      simp [hv, hfp, hcc, hsk, beBytes_length]
    have e4 : (v ++ [d % 256] ++ fp ++ beBytes 4 cn.toU32 ++ cc ++ [0] ++ skb) =
        v ++ ((d % 256) :: (fp ++ (beBytes 4 cn.toU32 ++ (cc ++ ([0] ++ skb))))) := by
      simp [List.append_assoc]
    have e5 : (v ++ [d % 256] ++ fp ++ beBytes 4 cn.toU32 ++ cc ++ [0] ++ skb) =
        (v ++ [d % 256]) ++ (fp ++ (beBytes 4 cn.toU32 ++ (cc ++ ([0] ++ skb)))) := by
      simp [List.append_assoc]
    have e9 : (v ++ [d % 256] ++ fp ++ beBytes 4 cn.toU32 ++ cc ++ [0] ++ skb) =
        ((v ++ [d % 256]) ++ fp) ++ (beBytes 4 cn.toU32 ++ (cc ++ ([0] ++ skb))) := by
      simp [List.append_assoc]
    have e13 : (v ++ [d % 256] ++ fp ++ beBytes 4 cn.toU32 ++ cc ++ [0] ++ skb) =
        (((v ++ [d % 256]) ++ fp) ++ beBytes 4 cn.toU32) ++ (cc ++ ([0] ++ skb)) := by
      simp [List.append_assoc]
    have hs4 : (v ++ [d % 256] ++ fp ++ beBytes 4 cn.toU32 ++ cc ++ [0] ++ skb).take 4 =
        v := by
      rw [e4]; exact takeHead _ _ _ hv
    have hg4 : (v ++ [d % 256] ++ fp ++ beBytes 4 cn.toU32 ++ cc ++ [0] ++ skb).getD 4 0 =
        d % 256 := by
      rw [e4]; exact getD_append_len _ _ _ _ hv
    have hs5 :
        ((v ++ [d % 256] ++ fp ++ beBytes 4 cn.toU32 ++ cc ++ [0] ++ skb).drop 5).take 4 =
        fp := by
      rw [e5]; exact sliceAt _ _ _ _ _ (by simp [hv]) hfp
    have hs9 :
        ((v ++ [d % 256] ++ fp ++ beBytes 4 cn.toU32 ++ cc ++ [0] ++ skb).drop 9).take 4 =
        beBytes 4 cn.toU32 := by
      rw [e9]; exact sliceAt _ _ _ _ _ (by simp [hv, hfp]) (beBytes_length 4 _)
    have hs13 :
        ((v ++ [d % 256] ++ fp ++ beBytes 4 cn.toU32 ++ cc ++ [0] ++ skb).drop 13).take 32 =
        cc := by
      rw [e13]; exact sliceAt _ _ _ _ _ (by simp [hv, hfp, beBytes_length]) hcc
    have hs46 :
        ((v ++ [d % 256] ++ fp ++ beBytes 4 cn.toU32 ++ cc ++ [0] ++ skb).drop 46).take 32 =
        skb := sliceAtEnd _ _ _ _ (by simp [hv, hfp, hcc, beBytes_length]) hsk
    have hcn2 : ChildNumber.ofU32 (natOfBe (beBytes 4 cn.toU32)) = cn := by
      rw [natOfBe_beBytes 4 _ (toU32_lt_pow cn hcn)]
      exact ofU32_toU32 cn hcn
    have hfs : Sm2PrivateKey.from_slice skb = .ok ⟨skb⟩ := by
      simp [Sm2PrivateKey.from_slice, hsk]
    unfold Bip32Sm2.fromSs58Priv
    simp only [hdec]
    rw [if_pos hlen, hs46]
    simp only [hfs]
    rw [hs5, hs9, hcn2, hs13, hs4, hg4, Nat.mod_eq_of_lt hd]

/-! ## Claim theorems -/

/-- C4.  Root construction: for every seed byte string,
`Bip32Sm2.from_seed` succeeds and returns an extended private key whose
scalar is the left 32 bytes of `HMAC-SHA512(key = b"Cita seed",
data = seed)`, whose chain code is the right 32 bytes, with depth 0,
all-zero parent fingerprint and child number Normal(0). -/
theorem C4_from_seed_structure (seed : List Nat) :
    Bip32Sm2.from_seed seed = .ok
      { depth := 0, parent_fingerprint := [0, 0, 0, 0], child_number := .Normal 0,
        private_key := ⟨(hmacSha512 ("Cita seed".data.map Char.toNat) seed).take 32⟩,
        chain_code := (hmacSha512 ("Cita seed".data.map Char.toNat) seed).drop 32 } := by
  simp [Bip32Sm2.from_seed, Sm2PrivateKey.from_slice, List.length_take, hmacSha512_length]

/-- C10.  For both the SM2 and the Starknet adapter, `sign_recoverable` is
definitionally the same operation as `sign` (same external signing
primitive, same key, same message): it delegates and adds no recovery
information. -/
theorem C10_sign_recoverable_delegates :
    (∀ (citaSign : List Nat → List Nat → Option (List Nat)) (sk : Sm2PrivateKey)
       (data : List Nat),
       Sm2PrivateKey.sign_recoverable citaSign sk data = Sm2PrivateKey.sign citaSign sk data) ∧
    (∀ (ecdsaSign : Nat → Nat → Option (Nat × Nat)) (sk : Nat) (data : List Nat),
       StarknetPrivateKey.sign_recoverable ecdsaSign sk data =
         StarknetPrivateKey.sign ecdsaSign sk data) :=
  ⟨fun _ _ _ => rfl, fun _ _ _ => rfl⟩

/-- C7.  No-uncatchable-faults claim (code bug): the core does panic on
reachable inputs.  `KeyManage::private_key_from_slice` hits the wildcard
arm for any non-secp256k1 curve type, and `Sm2PrivateKey::public_key`
unwraps on the all-zero scalar that `Sm2PrivateKey::from_slice` accepted;
both are modelled as `none`. -/
theorem C7_panics_reachable :
    KeyManage.private_key_from_slice CurveType.SM2 [] = none ∧
    Sm2PrivateKey.from_slice (List.replicate 32 0) =
      .ok ⟨List.replicate 32 0⟩ ∧
    Sm2PrivateKey.public_key ⟨List.replicate 32 0⟩ = none := by
  refine ⟨rfl, by decide, ?_⟩
  simp [Sm2PrivateKey.public_key, keyPairPubkey]
  decide

/-- C8.  Public-key parsing claim (code bug): `Sm2PublicKey::from_slice`
accepts 64 arbitrary bytes — here the all-zero string, which is not an
on-curve point — and returns a key instead of failing; and a slice of any
other length is a panic (modelled `none`), not an `InvalidPublicKey`
error. -/
theorem C8_from_slice_no_validation :
    Sm2PublicKey.from_slice (List.replicate 64 0) =
      some (.ok ⟨List.replicate 64 0⟩) ∧
    onCurve (natOfBe (List.replicate 32 0)) (natOfBe (List.replicate 32 0)) = false ∧
    Sm2PublicKey.from_slice [] = none := by
  refine ⟨by decide, by decide, rfl⟩

/-! ## C6: depth behaviour -/

/-- C6 counterexample: at parent depth 255 a hardened derivation succeeds
and the u8 child depth wraps to 0, which is not parent depth plus one and
is a decrease. -/
theorem C6_depth_counterexample :
    (c6Parent.ckd_priv (ChildNumber.Hardened 0)).map (Except.map Sm2ExtendedPrivKey.depth) =
      some (.ok 0) ∧
    c6Parent.depth + 1 = 256 ∧ (0 : Nat) ≠ 256 := by
  refine ⟨by decide, rfl, by decide⟩

/-- C6 amended: a root from `from_seed` has depth 0, and every successful
child derivation (private or public) gives depth `(parent depth + 1) % 256`
— exactly parent + 1 while the parent depth is below 255, wrapping to 0 at
255. -/
theorem C6_depth_amended :
    (∀ seed k, Bip32Sm2.from_seed seed = .ok k → k.depth = 0) ∧
    (∀ (p : Sm2ExtendedPrivKey) (i : ChildNumber) (c : Sm2ExtendedPrivKey),
        p.ckd_priv i = some (.ok c) → c.depth = (p.depth + 1) % 256) ∧
    (∀ (p : Sm2ExtendedPubKey) (i : ChildNumber) (c : Sm2ExtendedPubKey),
        p.ckd_pub i = some (.ok c) → c.depth = (p.depth + 1) % 256) := by
  refine ⟨?_, ?_, ?_⟩
  · intro seed k h
    simp only [Bip32Sm2.from_seed] at h
    split at h
    · exact absurd h (by simp)
    · simp only [Except.ok.injEq] at h
      subst h
      rfl
  · intro p i c h
    simp only [Sm2ExtendedPrivKey.ckd_priv] at h
    repeat' split at h
    all_goals
      first
        | (simp only [Option.some.injEq, Except.ok.injEq] at h; subst h; rfl)
        | simp at h
  · intro p i c h
    simp only [Sm2ExtendedPubKey.ckd_pub] at h
    repeat' split at h
    all_goals
      first
        | (simp only [Option.some.injEq, Except.ok.injEq] at h; subst h; rfl)
        | simp at h

/-- C6 witness: the amended depth law instantiated at a concrete
successful derivation. -/
theorem C6_depth_witness : c6wChild.depth = (c6wParent.depth + 1) % 256 :=
  C6_depth_amended.2.1 c6wParent (.Hardened 0) c6wChild (by decide)

/-! ## C3: hardened exclusion on the public side -/

/-- C3 counterexample: on a path whose first component is normal and whose
second is hardened, `derive_pub` from an off-curve public key fails with
`InvalidSm2Key` from the first step, not with
`CannotDeriveFromHardenedKey`. -/
theorem C3_counterexample :
    c3Key.derive_pub [ChildNumber.Normal 0, ChildNumber.Hardened 0] =
      some (.error (.key .InvalidSm2Key)) ∧
    TcxError.key .InvalidSm2Key ≠ TcxError.key .CannotDeriveFromHardenedKey := by
  exact ⟨by decide, by decide⟩

/-- C3 amended: `ckd_pub` on a hardened index always fails with
`CannotDeriveFromHardenedKey`, for every extended public key; and
`derive_pub` on any path containing a hardened component never returns a
key — though the reported error can be an earlier failure of a preceding
normal component. -/
theorem C3_hardened_amended :
    (∀ (k : Sm2ExtendedPubKey) (i : Nat),
        k.ckd_pub (.Hardened i) =
          some (.error (.key .CannotDeriveFromHardenedKey))) ∧
    (∀ (k : Sm2ExtendedPubKey) (path : List ChildNumber),
        path.any ChildNumber.isHardenedCN = true →
        ∀ c, k.derive_pub path ≠ some (.ok c)) := by
  have hck : ∀ (k : Sm2ExtendedPubKey) (i : Nat),
      k.ckd_pub (.Hardened i) = some (.error (.key .CannotDeriveFromHardenedKey)) :=
    fun k i => rfl
  refine ⟨hck, ?_⟩
  intro k path h c
  induction path generalizing k with
  | nil => simp at h
  | cons i rest ih =>
    cases i with
    | Hardened n =>
      simp [Sm2ExtendedPubKey.derive_pub, hck k n]
    | Normal n =>
      simp only [List.any_cons, ChildNumber.isHardenedCN, Bool.false_or] at h
      cases hk : k.ckd_pub (.Normal n) with
      | none => simp [Sm2ExtendedPubKey.derive_pub, hk]
      | some r =>
        cases r with
        | error e => simp [Sm2ExtendedPubKey.derive_pub, hk]
        | ok k2 =>
          simp only [Sm2ExtendedPubKey.derive_pub, hk]
          exact ih k2 h

/-- C3 witness: the amended statement instantiated at the concrete key and
a one-component hardened path. -/
theorem C3_witness :
    c3Key.ckd_pub (.Hardened 5) = some (.error (.key .CannotDeriveFromHardenedKey)) ∧
    ([ChildNumber.Hardened 5].any ChildNumber.isHardenedCN = true ∧
      c3Key.derive_pub [ChildNumber.Hardened 5] ≠ some (.ok c3Key)) :=
  ⟨C3_hardened_amended.1 c3Key 5,
   by decide,
   C3_hardened_amended.2 c3Key [ChildNumber.Hardened 5] (by decide) c3Key⟩

/-! ## C9: malformed path components -/

/-- C9 counterexample: the path string m/abc fails with the bitcoin bip32
`InvalidChildNumberFormat` error, which is not
`InvalidDerivationPathFormat` (in either error enum). -/
theorem C9_counterexample :
    Bip32Sm2.derivePrivStr c9PrivKey "m/abc".data =
      some (.error (.bip32 .InvalidChildNumberFormat)) ∧
    Bip32Sm2.derivePubStr c9PubKey "m/abc".data =
      some (.error (.bip32 .InvalidChildNumberFormat)) ∧
    TcxError.bip32 .InvalidChildNumberFormat ≠ TcxError.bip32 .InvalidDerivationPathFormat ∧
    TcxError.bip32 .InvalidChildNumberFormat ≠ TcxError.key .InvalidDerivationPathFormat := by
  exact ⟨by decide, by decide, by decide, by decide⟩

/-- Helper: a parse over components fails with the error of the first bad
component once every earlier component parses. -/
theorem parsePathComponents_error (e : TcxError) :
    ∀ (pre : List (List Char)) (bad : List Char) (post : List (List Char)),
      (∀ p ∈ pre, (childNumberFromStr p).isOk = true) →
      childNumberFromStr bad = .error e →
      parsePathComponents (pre ++ bad :: post) = .error e := by
  intro pre
  induction pre with
  | nil =>
    intro bad post _ hbad
    simp [parsePathComponents, hbad]
  | cons p pre ih =>
    intro bad post hok hbad
    have hp := hok p (by simp)
    cases hcp : childNumberFromStr p with
    | error e2 => rw [hcp] at hp; simp [Except.isOk, Except.toBool] at hp
    | ok cn =>
      have := ih bad post (fun q hq => hok q (by simp [hq])) hbad
      simp [parsePathComponents, hcp, this]

/-- C9 amended: derivation on a path string whose components include one
that does not parse as a decimal integer (optionally suffixed for
hardened) fails with the bitcoin bip32 error `InvalidChildNumberFormat` —
not `InvalidDerivationPathFormat` — provided every component before the
malformed one parses as a valid child number; this holds for both the
private and the public deterministic key. -/
theorem C9_malformed_path_amended
    (k : Sm2ExtendedPrivKey) (kp : Sm2ExtendedPubKey) (s : List Char)
    (pre : List (List Char)) (bad : List Char) (post : List (List Char))
    (hsplit : stripM (splitSlash s) = pre ++ bad :: post)
    (hok : ∀ p ∈ pre, (childNumberFromStr p).isOk = true)
    (hbad : childNumberFromStr bad = .error (.bip32 .InvalidChildNumberFormat)) :
    Bip32Sm2.derivePrivStr k s = some (.error (.bip32 .InvalidChildNumberFormat)) ∧
    Bip32Sm2.derivePubStr kp s = some (.error (.bip32 .InvalidChildNumberFormat)) := by
  have hp := parsePathComponents_error _ pre bad post hok hbad
  constructor
  · simp [Bip32Sm2.derivePrivStr, hsplit, hp]
  · simp [Bip32Sm2.derivePubStr, hsplit, hp]

/-- C9 witness: the amended statement at the concrete path m/abc. -/
theorem C9_witness :
    Bip32Sm2.derivePrivStr c9PrivKey "m/abc".data =
      some (.error (.bip32 .InvalidChildNumberFormat)) ∧
    Bip32Sm2.derivePubStr c9PubKey "m/abc".data =
      some (.error (.bip32 .InvalidChildNumberFormat)) :=
  C9_malformed_path_amended c9PrivKey c9PubKey "m/abc".data [] "abc".data []
    (by decide) (by simp) (by decide)

/-! ## C2: known-vector scenario -/

theorem c2_root_eval : Bip32Sm2.from_seed c2Seed = .ok c2Root := rfl

theorem c2_ckd_a_eval : Sm2ExtendedPrivKey.ckd_priv c2Root (.Hardened 44) = some (.ok c2NodeA) := rfl

theorem c2_ckd_b_eval : Sm2ExtendedPrivKey.ckd_priv c2NodeA (.Hardened 0) = some (.ok c2NodeB) := rfl

theorem c2_ckd_c_eval : Sm2ExtendedPrivKey.ckd_priv c2NodeB (.Hardened 0) = some (.ok c2NodeC) := rfl

theorem c2_ckd_d0_eval : Sm2ExtendedPrivKey.ckd_priv c2NodeC (.Normal 0) = some (.ok c2NodeD0) := rfl

theorem c2_ckd_d1_eval : Sm2ExtendedPrivKey.ckd_priv c2NodeC (.Normal 1) = some (.ok c2NodeD1) := rfl

theorem c2_ckd_l1_eval : Sm2ExtendedPrivKey.ckd_priv c2NodeD0 (.Normal 0) = some (.ok c2Leaf1) := rfl

theorem c2_ckd_l2_eval : Sm2ExtendedPrivKey.ckd_priv c2NodeD0 (.Normal 1) = some (.ok c2Leaf2) := rfl

theorem c2_ckd_l3_eval : Sm2ExtendedPrivKey.ckd_priv c2NodeD1 (.Normal 0) = some (.ok c2Leaf3) := rfl

theorem c2_ckd_l4_eval : Sm2ExtendedPrivKey.ckd_priv c2NodeD1 (.Normal 1) = some (.ok c2Leaf4) := rfl

theorem c2_parse1_eval :
    parsePathComponents (stripM (splitSlash c2Path1)) =
      .ok [.Hardened 44, .Hardened 0, .Hardened 0, .Normal 0, .Normal 0] := rfl

theorem c2_pub1_eval :
    (Sm2PrivateKey.public_key c2Leaf1.private_key).map (fun pk => hexEncode pk.to_bytes) =
      some "ef7f4d9fa39d197efaacab722dd35397940b70e40a0777dfcd5baf1e33359043cc41a6e86f513a92fad74167513ebfb7096c27e3521aac748226debdd1e86894".data := rfl

theorem c2_parse2_eval :
    parsePathComponents (stripM (splitSlash c2Path2)) =
      .ok [.Hardened 44, .Hardened 0, .Hardened 0, .Normal 0, .Normal 1] := rfl

theorem c2_pub2_eval :
    (Sm2PrivateKey.public_key c2Leaf2.private_key).map (fun pk => hexEncode pk.to_bytes) =
      some "244f34c99b9f9c8adcef24ecab8f4c5c628033162f2e8318c5bd147bc9017341621ee552c678177d0b926661046f0d3aa64e590cd06d0664d046ffc44e342c31".data := rfl

theorem c2_parse3_eval :
    parsePathComponents (stripM (splitSlash c2Path3)) =
      .ok [.Hardened 44, .Hardened 0, .Hardened 0, .Normal 1, .Normal 0] := rfl

theorem c2_pub3_eval :
    (Sm2PrivateKey.public_key c2Leaf3.private_key).map (fun pk => hexEncode pk.to_bytes) =
      some "d34e0bd95305d14d196d365a85274a8c0525a6f31d7a18ba6ab7452099e1f8649cd6b38a4934215de7628cf10bc2a508dcf80dcec99090f38c7cd1d2ad4d7069".data := rfl

theorem c2_parse4_eval :
    parsePathComponents (stripM (splitSlash c2Path4)) =
      .ok [.Hardened 44, .Hardened 0, .Hardened 0, .Normal 1, .Normal 1] := rfl

theorem c2_pub4_eval :
    (Sm2PrivateKey.public_key c2Leaf4.private_key).map (fun pk => hexEncode pk.to_bytes) =
      some "8423426816c06421a44393ddc6852d48d3d2f16f941e9b836e21025f7e509978977ff19d2fed8ade27becae2aae3d98c6257e29638bbea421a11f12a96d5edea".data := rfl

/-- C2.  Known-vector scenario: for every external bip39 expansion that
maps the test phrase to its seed (empty passphrase), building the root via
`from_mnemonic` and deriving the four test paths yields private keys whose
public keys hex-encode to the four fixed 64-byte uncompressed-point
vectors of the repository test `derive_public_sm2_keys`. -/
theorem C2_known_vectors (bip39Expand : List Char → Option (List Nat))
    (h : bip39Expand c2Phrase = some c2Seed) :
    c2PubHex bip39Expand c2Path1 = some "ef7f4d9fa39d197efaacab722dd35397940b70e40a0777dfcd5baf1e33359043cc41a6e86f513a92fad74167513ebfb7096c27e3521aac748226debdd1e86894".data ∧
    c2PubHex bip39Expand c2Path2 = some "244f34c99b9f9c8adcef24ecab8f4c5c628033162f2e8318c5bd147bc9017341621ee552c678177d0b926661046f0d3aa64e590cd06d0664d046ffc44e342c31".data ∧
    c2PubHex bip39Expand c2Path3 = some "d34e0bd95305d14d196d365a85274a8c0525a6f31d7a18ba6ab7452099e1f8649cd6b38a4934215de7628cf10bc2a508dcf80dcec99090f38c7cd1d2ad4d7069".data ∧
    c2PubHex bip39Expand c2Path4 = some "8423426816c06421a44393ddc6852d48d3d2f16f941e9b836e21025f7e509978977ff19d2fed8ade27becae2aae3d98c6257e29638bbea421a11f12a96d5edea".data := by
  have hroot : Bip32Sm2.from_mnemonic bip39Expand c2Phrase = .ok c2Root := by
    simp only [Bip32Sm2.from_mnemonic, h, c2_root_eval]
  refine ⟨?_, ?_, ?_, ?_⟩
  · simp only [c2PubHex, hroot, Bip32Sm2.derivePrivStr, c2_parse1_eval,
      Sm2ExtendedPrivKey.derive_priv, c2_ckd_a_eval, c2_ckd_b_eval, c2_ckd_c_eval,
      c2_ckd_d0_eval, c2_ckd_l1_eval, c2_pub1_eval]
  · simp only [c2PubHex, hroot, Bip32Sm2.derivePrivStr, c2_parse2_eval,
      Sm2ExtendedPrivKey.derive_priv, c2_ckd_a_eval, c2_ckd_b_eval, c2_ckd_c_eval,
      c2_ckd_d0_eval, c2_ckd_l2_eval, c2_pub2_eval]
  · simp only [c2PubHex, hroot, Bip32Sm2.derivePrivStr, c2_parse3_eval,
      Sm2ExtendedPrivKey.derive_priv, c2_ckd_a_eval, c2_ckd_b_eval, c2_ckd_c_eval,
      c2_ckd_d1_eval, c2_ckd_l3_eval, c2_pub3_eval]
  · simp only [c2PubHex, hroot, Bip32Sm2.derivePrivStr, c2_parse4_eval,
      Sm2ExtendedPrivKey.derive_priv, c2_ckd_a_eval, c2_ckd_b_eval, c2_ckd_c_eval,
      c2_ckd_d1_eval, c2_ckd_l4_eval, c2_pub4_eval]

/-- C2 witness: the theorem applied to a concrete expansion function that
maps the phrase to the seed. -/
theorem C2_witness :
    ((fun _ => some c2Seed : List Char → Option (List Nat)) c2Phrase = some c2Seed) ∧
    (c2PubHex (fun _ => some c2Seed) c2Path1 = some "ef7f4d9fa39d197efaacab722dd35397940b70e40a0777dfcd5baf1e33359043cc41a6e86f513a92fad74167513ebfb7096c27e3521aac748226debdd1e86894".data ∧
     c2PubHex (fun _ => some c2Seed) c2Path2 = some "244f34c99b9f9c8adcef24ecab8f4c5c628033162f2e8318c5bd147bc9017341621ee552c678177d0b926661046f0d3aa64e590cd06d0664d046ffc44e342c31".data ∧
     c2PubHex (fun _ => some c2Seed) c2Path3 = some "d34e0bd95305d14d196d365a85274a8c0525a6f31d7a18ba6ab7452099e1f8649cd6b38a4934215de7628cf10bc2a508dcf80dcec99090f38c7cd1d2ad4d7069".data ∧
     c2PubHex (fun _ => some c2Seed) c2Path4 = some "8423426816c06421a44393ddc6852d48d3d2f16f941e9b836e21025f7e509978977ff19d2fed8ade27becae2aae3d98c6257e29638bbea421a11f12a96d5edea".data) :=
  ⟨rfl, C2_known_vectors (fun _ => some c2Seed) rfl⟩

/-! ## C1: CKD consistency law -/

theorem c1_ckd_eval : c1Parent.ckd_priv (.Normal 0) = some (.ok c1Child) := rfl

theorem c1_childPub_eval : Sm2ExtendedPubKey.from_private c1Child = some c1ChildPub := rfl

theorem c1_parentPub_eval : Sm2ExtendedPubKey.from_private c1Parent = some c1ParentPub := rfl

theorem c1_pubCkd_eval : c1ParentPub.ckd_pub (.Normal 0) = some (.ok c1PubChild) := rfl

/-- C1.  CKD consistency law (code bug): at the concrete parent `c1Parent`
and the non-hardened child number Normal(0), private derivation succeeds,
both sides of the law are defined (no panic), the two chain codes agree —
but the public key points differ, because `ckd_priv` adds the tweak to the
parent scalar modulo the coordinate-field prime p (libsm `FieldCtx::add`)
while the public-side derivation adds `IL * G` to the parent point, an
addition modulo the group order n. -/
theorem C1_ckd_consistency_fails :
    c1Parent.ckd_priv (ChildNumber.Normal 0) = some (.ok c1Child) ∧
    Sm2ExtendedPubKey.from_private c1Child = some c1ChildPub ∧
    Sm2ExtendedPubKey.from_private c1Parent = some c1ParentPub ∧
    c1ParentPub.ckd_pub (ChildNumber.Normal 0) = some (.ok c1PubChild) ∧
    c1ChildPub.chain_code = c1PubChild.chain_code ∧
    c1ChildPub.public_key ≠ c1PubChild.public_key :=
  ⟨c1_ckd_eval, c1_childPub_eval, c1_parentPub_eval, c1_pubCkd_eval,
   by decide, by decide⟩

/-! ## C5: extended-key codec round-trips -/

/-- C5.  Extended-key codec round-trip: for every well-formed SM2 extended
public key, hex decode of hex encode succeeds and returns the same key; for
every 4-byte version, ss58check decode of ss58check encode returns the same
key together with the version bytes; and the analogous base58check
round-trip holds for well-formed SM2 extended private keys. -/
theorem C5_codec_roundtrip (kpub : Sm2ExtendedPubKey) (kpriv : Sm2ExtendedPrivKey)
    (v : List Nat) (hpub : Sm2ExtendedPubKey.WF kpub) (hpriv : Sm2ExtendedPrivKey.WF kpriv)
    (hv : v.length = 4) (hvB : ByteList v) :
    (∃ s, Bip32Sm2.toHexPub kpub = some s ∧ Bip32Sm2.fromHexPub s = .ok kpub) ∧
    (∃ s, Bip32Sm2.toSs58Pub kpub v = some s ∧
      Bip32Sm2.fromSs58Pub s = .ok (kpub, v)) ∧
    (∃ s, Bip32Sm2.toSs58Priv kpriv v = some s ∧
      Bip32Sm2.fromSs58Priv s = .ok (kpriv, v)) :=
  ⟨toHexPub_roundtrip kpub hpub, toSs58Pub_roundtrip kpub v hpub hv hvB,
   toSs58Priv_roundtrip kpriv v hpriv hv hvB⟩

/-- Witness for C5 at concrete well-formed keys and version bytes. -/
theorem C5_witness :
    (∃ s, Bip32Sm2.toHexPub c5Pub = some s ∧ Bip32Sm2.fromHexPub s = .ok c5Pub) ∧
    (∃ s, Bip32Sm2.toSs58Pub c5Pub c5Ver = some s ∧
      Bip32Sm2.fromSs58Pub s = .ok (c5Pub, c5Ver)) ∧
    (∃ s, Bip32Sm2.toSs58Priv c5Priv c5Ver = some s ∧
      Bip32Sm2.fromSs58Priv s = .ok (c5Priv, c5Ver)) :=
  C5_codec_roundtrip c5Pub c5Priv c5Ver (by decide) (by decide) (by decide) (by decide)
